import Mathlib

/-!
# Verification of the agentgraph record/replay and tracing core

Shallow embedding of the `agentgit` / `agenttest` Python sources:

* `Sha256` : executable SHA-256 (the `hashlib.sha256(...).hexdigest()`
  primitive used by `fingerprint.py` and `comparator.py`);
* `Py`     : a model of the Python values flowing through the code
  (JSON-serialisable dicts/lists/strings/ints/bools/None), Python
  truthiness, and `json.dumps` with both separator conventions used by
  the sources;
* embeddings of `agenttest/fingerprint.py`, `agenttest/alignment.py`,
  `agenttest/cascade.py`, `agenttest/comparator.py`,
  `agenttest/session.py`, `agentgit/eventbus.py`,
  `agentgit/storage/dag_store.py` and `agentgit/tracer.py`;
* theorems settling the behavioural claims about those components.
-/

/-! ## SHA-256 (model of `hashlib.sha256(...).hexdigest()`) -/

namespace Sha256

/-- Truncate to a 32-bit word. -/
def w32 (n : Nat) : Nat := n % 4294967296

/-- Rotate a 32-bit word right by `b` bits. -/
def rotr (b n : Nat) : Nat := w32 ((n >>> b) ||| (n <<< (32 - b)))

def bsig0 (n : Nat) : Nat := (rotr 2 n) ^^^ (rotr 13 n) ^^^ (rotr 22 n)

def bsig1 (n : Nat) : Nat := (rotr 6 n) ^^^ (rotr 11 n) ^^^ (rotr 25 n)

def ssig0 (n : Nat) : Nat := (rotr 7 n) ^^^ (rotr 18 n) ^^^ (n >>> 3)

def ssig1 (n : Nat) : Nat := (rotr 17 n) ^^^ (rotr 19 n) ^^^ (n >>> 10)

def ch (x y z : Nat) : Nat := (x &&& y) ^^^ ((x ^^^ 4294967295) &&& z)

def maj (x y z : Nat) : Nat := (x &&& y) ^^^ (x &&& z) ^^^ (y &&& z)

/-- The 64 round constants. -/
def K : List Nat :=
  [1116352408, 1899447441, 3049323471, 3921009573, 961987163, 1508970993,
   2453635748, 2870763221, 3624381080, 310598401, 607225278, 1426881987,
   1925078388, 2162078206, 2614888103, 3248222580, 3835390401, 4022224774,
   264347078, 604807628, 770255983, 1249150122, 1555081692, 1996064986,
   2554220882, 2821834349, 2952996808, 3210313671, 3336571891, 3584528711,
   113926993, 338241895, 666307205, 773529912, 1294757372, 1396182291,
   1695183700, 1986661051, 2177026350, 2456956037, 2730485921, 2820302411,
   3259730800, 3345764771, 3516065817, 3600352804, 4094571909, 275423344,
   430227734, 506948616, 659060556, 883997877, 958139571, 1322822218,
   1537002063, 1747873779, 1955562222, 2024104815, 2227730452, 2361852424,
   2428436474, 2756734187, 3204031479, 3329325298]

/-- Initial hash value. -/
def H0 : List Nat :=
  [1779033703, 3144134277, 1013904242, 2773480762,
   1359893119, 2600822924, 528734635, 1541459225]

/-- Big-endian recombination of `k` bytes into one number. -/
def beCombine : List Nat → Nat
  | [] => 0
  | b :: bs => b * 256 ^ bs.length + beCombine bs

/-- Split a list into chunks of `k` elements (`k > 0`), with explicit fuel
so that it is structurally recursive and evaluates by `rfl`. -/
def chunksF (k : Nat) : Nat → List α → List (List α)
  | _, [] => []
  | 0, _ :: _ => []
  | f + 1, a :: l =>
    match k with
    | 0 => []
    | k + 1 => (a :: l).take (k + 1) :: chunksF (k + 1) f (l.drop k)

/-- Split a list into chunks of `k` elements (`k > 0`). -/
def chunks (k : Nat) (l : List α) : List (List α) := chunksF k l.length l

/-- The first sixteen 32-bit words of a 64-byte block. -/
def blockWords (block : List Nat) : List Nat :=
  (chunks 4 block).map beCombine

/-- Extend 16 words to 64 by the message schedule, `rounds` extra words. -/
def extendSchedule (w : List Nat) : Nat → List Nat
  | 0 => w
  | n + 1 =>
    let t := w.length
    let wt := w32 (ssig1 (w.getD (t - 2) 0) + w.getD (t - 7) 0 +
                   ssig0 (w.getD (t - 15) 0) + w.getD (t - 16) 0)
    extendSchedule (w ++ [wt]) n

/-- One round of the compression function on the state `(a,b,c,d,e,f,g,h)`. -/
def round (st : List Nat) (kt wt : Nat) : List Nat :=
  match st with
  | [a, b, c, d, e, f, g, h] =>
    let t1 := w32 (h + bsig1 e + ch e f g + kt + wt)
    let t2 := w32 (bsig0 a + maj a b c)
    [w32 (t1 + t2), a, b, c, w32 (d + t1), e, f, g]
  | other => other

/-- Compress one 64-byte block into the running hash. -/
def compress (h : List Nat) (block : List Nat) : List Nat :=
  let w := extendSchedule (blockWords block) 48
  let st := (List.zip K w).foldl (fun s kw => round s kw.1 kw.2) h
  (List.zip h st).map (fun p => w32 (p.1 + p.2))

/-- SHA-256 padding of a byte string. -/
def pad (msg : List Nat) : List Nat :=
  let l := msg.length
  let zeros := (64 - (l + 9) % 64) % 64
  msg ++ [0x80] ++ List.replicate zeros 0 ++
    [(8 * l) >>> 56 % 256, (8 * l) >>> 48 % 256, (8 * l) >>> 40 % 256, (8 * l) >>> 32 % 256,
     (8 * l) >>> 24 % 256, (8 * l) >>> 16 % 256, (8 * l) >>> 8 % 256, (8 * l) % 256]

/-- Digest a byte string into eight 32-bit words. -/
def digestWords (msg : List Nat) : List Nat :=
  (chunks 64 (pad msg)).foldl compress H0

def hexDigit (n : Nat) : Char :=
  if n < 10 then Char.ofNat (48 + n) else Char.ofNat (87 + n)

/-- Eight lowercase hex digits for a 32-bit word. -/
def wordHex (n : Nat) : List Char :=
  [hexDigit (n >>> 28 % 16), hexDigit (n >>> 24 % 16), hexDigit (n >>> 20 % 16),
   hexDigit (n >>> 16 % 16), hexDigit (n >>> 12 % 16), hexDigit (n >>> 8 % 16),
   hexDigit (n >>> 4 % 16), hexDigit (n % 16)]

/-- UTF-8 encoding of one character, as a list of byte values. -/
def utf8Char (c : Char) : List Nat :=
  let n := c.toNat
  if n < 0x80 then [n]
  else if n < 0x800 then [0xc0 + n / 64, 0x80 + n % 64]
  else if n < 0x10000 then [0xe0 + n / 4096, 0x80 + n / 64 % 64, 0x80 + n % 64]
  else [0xf0 + n / 262144, 0x80 + n / 4096 % 64, 0x80 + n / 64 % 64, 0x80 + n % 64]

/-- UTF-8 encoding of a string. -/
def utf8Encode (s : String) : List Nat := s.data.flatMap utf8Char

/-- `hashlib.sha256(s.encode('utf-8')).hexdigest()`. -/
def sha256hex (s : String) : String :=
  ⟨((digestWords (utf8Encode s)).map wordHex).flatten⟩

end Sha256

/-! ## Model of Python values and `json.dumps`

The request/response payloads flowing through `agenttest` are
JSON-serialisable Python values (dicts, lists, strings, ints, bools,
`None`).  Dicts are association lists (keys unique in practice).
-/

namespace Py

/-- Python exceptions that the embedded code can raise. -/
inductive Err where
  | typeError
  | indexError
  | attributeError
  | runtimeError
deriving DecidableEq, Repr

/-- JSON-serialisable Python values. -/
inductive Val where
  | str : String → Val
  | int : Int → Val
  | bool : Bool → Val
  | none : Val
  | list : List Val → Val
  | dict : List (String × Val) → Val

/-- `d.get(k, default)` on a dict. -/
def dictGet (d : List (String × Val)) (k : String) (default : Val) : Val :=
  match d.find? (fun kv => kv.1 = k) with
  | some kv => kv.2
  | Option.none => default

/-- `k in d` on a dict. -/
def dictHas (d : List (String × Val)) (k : String) : Bool :=
  (d.find? (fun kv => kv.1 = k)).isSome

/-- Python truthiness of a value. -/
def truthy : Val → Bool
  | .str s => !(s == "")
  | .int n => !(n == 0)
  | .bool b => b
  | .none => false
  | .list [] => false
  | .list (_ :: _) => true
  | .dict [] => false
  | .dict (_ :: _) => true

/-- `for x in v`: lists yield elements, strings yield characters, dicts
yield keys; other values raise `TypeError`. -/
def iter : Val → Except Err (List Val)
  | .list l => .ok l
  | .str s => .ok (s.data.map (fun c => .str c.toString))
  | .dict d => .ok (d.map (fun kv => Val.str kv.1))
  | _ => .error .typeError

/-- Lowercase hex digit. -/
def hexDigit (n : Nat) : Char :=
  if n < 10 then Char.ofNat (48 + n) else Char.ofNat (87 + n)

/-- Four lowercase hex digits of `n < 0x10000`. -/
def hex4 (n : Nat) : List Char :=
  [hexDigit (n / 4096 % 16), hexDigit (n / 256 % 16), hexDigit (n / 16 % 16), hexDigit (n % 16)]

/-- `json` string escaping of one character (default `ensure_ascii=True`:
everything outside printable ASCII becomes `\uXXXX`, astral code points
become surrogate pairs). -/
def escChar (c : Char) : List Char :=
  let n := c.toNat
  if c = '\\' then ['\\', '\\']
  else if c = '"' then ['\\', '"']
  else if c = '\n' then ['\\', 'n']
  else if c = '\r' then ['\\', 'r']
  else if c = '\t' then ['\\', 't']
  else if n = 8 then ['\\', 'b']
  else if n = 12 then ['\\', 'f']
  else if 0x20 ≤ n ∧ n ≤ 0x7e then [c]
  else if n < 0x10000 then '\\' :: 'u' :: hex4 n
  else ('\\' :: 'u' :: hex4 (0xd800 + (n - 0x10000) / 0x400)) ++
       ('\\' :: 'u' :: hex4 (0xdc00 + (n - 0x10000) % 0x400))

def escapeStr (s : String) : List Char := s.data.flatMap escChar

/-- Python `sep.join(parts)`. -/
def pyJoin (sep : String) : List String → String
  | [] => ""
  | [x] => x
  | x :: xs => x ++ sep ++ pyJoin sep xs

/-- `json.dumps` applied to a Python string. -/
def dumpStr (s : String) : String := ⟨'"' :: (escapeStr s ++ ['"'])⟩

/-- Stable insertion of `x` after every element `y` with `le y x`. -/
def insertSorted (le : α → α → Bool) (x : α) : List α → List α
  | [] => [x]
  | y :: ys => if le y x then y :: insertSorted le x ys else x :: y :: ys

/-- Python `sorted`: stable ascending sort (written as a structurally
recursive insertion sort so that it evaluates by `rfl`). -/
def pySorted (le : α → α → Bool) (l : List α) : List α :=
  l.foldl (fun acc x => insertSorted le x acc) []

/-- Python string `<`: lexicographic on code points. -/
def strLt : List Char → List Char → Bool
  | [], [] => false
  | [], _ :: _ => true
  | _ :: _, [] => false
  | a :: as, b :: bs =>
      if a.toNat < b.toNat then true
      else if b.toNat < a.toNat then false
      else strLt as bs

/-- Python string `<=`. -/
def strLe (s t : String) : Bool := !(strLt t.data s.data)

mutual

/-- `json.dumps(v, sort_keys=sortKeys, separators=(item, kv))`. -/
def dumps (item kv : String) (sortKeys : Bool) : Val → String
  | .str s => dumpStr s
  | .int n => toString n
  | .bool b => if b then "true" else "false"
  | .none => "null"
  | .list l => "[" ++ pyJoin item (dumpsList item kv sortKeys l) ++ "]"
  | .dict d =>
    let entries := dumpsDict item kv sortKeys d
    let entries := if sortKeys then pySorted (fun e₁ e₂ => strLe e₁.1 e₂.1) entries else entries
    "\x7b" ++ pyJoin item (entries.map (fun e => dumpStr e.1 ++ kv ++ e.2)) ++ "\x7d"

def dumpsList (item kv : String) (sortKeys : Bool) : List Val → List String
  | [] => []
  | v :: vs => dumps item kv sortKeys v :: dumpsList item kv sortKeys vs

def dumpsDict (item kv : String) (sortKeys : Bool) : List (String × Val) → List (String × String)
  | [] => []
  | p :: ps => (p.1, dumps item kv sortKeys p.2) :: dumpsDict item kv sortKeys ps

end

/-- `json.dumps(v)` with the default separators. -/
def dumpsDefault (v : Val) : String := dumps ", " ": " false v

/-- `json.dumps(v, sort_keys=True, separators=(',', ':'))` — the canonical
serialisation used for response hashing. -/
def dumpsCanonical (v : Val) : String := dumps "," ":" true v

end Py

/-! ## `agenttest/fingerprint.py` -/

namespace AgentTest

open Py

/-- One message's contribution to the role list
(`fingerprint._extract_message_roles` loop body): non-dict messages are
skipped, falsy roles are skipped. -/
def roleContrib : Val → List Val
  | .dict d =>
    let role := dictGet d "role" (.str "")
    if truthy role then [role] else []
  | _ => []

/-- `fingerprint._extract_message_roles`. -/
def extract_message_roles (params : List (String × Val)) : Except Err (List Val) := do
  let messages ← iter (dictGet params "messages" (.list []))
  return messages.flatMap roleContrib

/-- One entry's contribution in the `tools` loop of
`fingerprint._extract_tool_names`: OpenAI shape `{"function": {"name": …}}`
first, then Anthropic shape `{"name": …}`. -/
def toolContrib : Val → List Val
  | .dict d =>
    if dictHas d "function" then
      match dictGet d "function" Val.none with
      | .dict f => if dictHas f "name" then [dictGet f "name" Val.none] else []
      | _ => []
    else if dictHas d "name" then [dictGet d "name" Val.none]
    else []
  | _ => []

/-- One entry's contribution in the legacy `functions` loop of
`fingerprint._extract_tool_names`. -/
def funcContrib : Val → List Val
  | .dict f => if dictHas f "name" then [dictGet f "name" Val.none] else []
  | _ => []

/-- `fingerprint._extract_tool_names`. -/
def extract_tool_names (params : List (String × Val)) : Except Err (List Val) := do
  let tools ← iter (dictGet params "tools" (.list []))
  let functions ← iter (dictGet params "functions" (.list []))
  return tools.flatMap toolContrib ++ functions.flatMap funcContrib

/-- `"|".join(...)` needs every part to be a `str`. -/
def asStr : Val → Except Err String
  | .str s => .ok s
  | _ => .error .typeError

/-- The `"|"`-joined structural string built inside
`fingerprint.compute_fingerprint` (the value of `combined` just before
`hashlib.sha256` is applied). -/
def structuralCombined (provider method : String) (request_params : List (String × Val)) :
    Except Err String := do
  let model ← asStr (dictGet request_params "model" (.str ""))
  let message_roles ← extract_message_roles request_params
  let tool_names ← extract_tool_names request_params
  return pyJoin "|" [provider, method, model,
    dumpsDefault (.list message_roles), dumpsDefault (.list tool_names)]

/-- `fingerprint.compute_fingerprint`. -/
def compute_fingerprint (provider method : String) (request_params : List (String × Val)) :
    Except Err String := do
  let combined ← structuralCombined provider method request_params
  return (Sha256.sha256hex combined).take 16

end AgentTest

/-! ### Injectivity of the JSON string escaping

`unescape` is a left inverse of the escaping, which makes `escapeStr`
injective; moreover escaped text never contains a raw `"`.  Both facts
drive the fingerprint order-sensitivity analysis.
-/

namespace Py

def hexVal (c : Char) : Nat :=
  if 97 ≤ c.toNat then c.toNat - 87 else c.toNat - 48

def unescEscaped (e : Char) : Char :=
  if e = 'n' then '\n'
  else if e = 'r' then '\r'
  else if e = 't' then '\t'
  else if e = 'b' then Char.ofNat 8
  else if e = 'f' then Char.ofNat 12
  else e

/-- First decoding pass: each escape unit becomes one UTF-16 code unit
(astral characters were escaped as two `\\uXXXX` units). -/
def escDecode : List Char → List Nat
  | '\\' :: 'u' :: h1 :: h2 :: h3 :: h4 :: rest =>
    (hexVal h1 * 4096 + hexVal h2 * 256 + hexVal h3 * 16 + hexVal h4) :: escDecode rest
  | '\\' :: 'u' :: _ => []
  | '\\' :: e :: rest => (unescEscaped e).toNat :: escDecode rest
  | ['\\'] => []
  | c :: rest => c.toNat :: escDecode rest
  | [] => []

/-- UTF-16 code units of a character. -/
def cuEncode (c : Char) : List Nat :=
  if c.toNat < 0x10000 then [c.toNat]
  else [0xd800 + (c.toNat - 0x10000) / 1024, 0xdc00 + (c.toNat - 0x10000) % 1024]

/-- Second decoding pass: recombine surrogate pairs. -/
def cuDecode : List Nat → List Char
  | [] => []
  | [v] => [Char.ofNat v]
  | v :: w :: rest =>
    if 0xd800 ≤ v ∧ v < 0xdc00 then
      Char.ofNat (0x10000 + (v - 0xd800) * 1024 + (w - 0xdc00)) :: cuDecode rest
    else Char.ofNat v :: cuDecode (w :: rest)

/-- Decoder for `escapeStr`. -/
def unescape (l : List Char) : List Char := cuDecode (escDecode l)

end Py

/-! ## `agenttest/alignment.py` -/

namespace AgentTest

open Py

/-- `LLMCallDetail` (`agenttest/models/llm_call_detail.py`). -/
structure LLMCallDetail where
  id : Option Int
  node_id : Nat
  recording_id : String
  step_index : Nat
  provider : String
  method : String
  model : String
  fingerprint : String
  request_params : List (String × Val)
  response_data : List (String × Val)
  is_streaming : Bool := false
  stream_id : Option String := Option.none
  duration_ms : Int := 0
  token_usage : Option Val := Option.none
  error : Option String := Option.none
  metadata : List (String × Val) := []

/-- `AlignStatus` (`alignment.py`). -/
inductive AlignStatus where
  | MATCHED
  | ADDED
  | REMOVED
deriving DecidableEq, Repr

/-- `AlignedPair` (`alignment.py`). -/
structure AlignedPair where
  baseline_detail : Option LLMCallDetail
  replay_detail : Option LLMCallDetail
  status : AlignStatus
  baseline_index : Option Nat := Option.none
  replay_index : Option Nat := Option.none

/-- One row of the LCS table: `dp[i+1]` as a function of `dp[i]`
(`prev`).  This is the standard functional memoisation of the
double loop filling `dp` in `alignment.compute_lcs`. -/
def lcsRow (s1 s2 : List String) (i : Nat) (prev : Nat → Nat) : Nat → Nat
  | 0 => 0
  | j + 1 =>
    match s1[i]?, s2[j]? with
    | some a, some b =>
      if a = b then prev j + 1
      else max (prev (j + 1)) (lcsRow s1 s2 i prev j)
    | _, _ => max (prev (j + 1)) (lcsRow s1 s2 i prev j)

/-- `dp[i][j]` of `alignment.compute_lcs`. -/
def lcsDp (s1 s2 : List String) : Nat → Nat → Nat
  | 0 => fun _ => 0
  | i + 1 => lcsRow s1 s2 i (lcsDp s1 s2 i)

/-- The backtracking loop of `alignment.compute_lcs`, producing matched
index pairs in decreasing order (fuelled; `i + j` is enough fuel). -/
def backtrackF (s1 s2 : List String) : Nat → Nat → Nat → List (Nat × Nat)
  | _, 0, _ => []
  | _, _ + 1, 0 => []
  | 0, _ + 1, _ + 1 => []
  | f + 1, i + 1, j + 1 =>
    match s1[i]?, s2[j]? with
    | some a, some b =>
      if a = b then (i, j) :: backtrackF s1 s2 f i j
      else if lcsDp s1 s2 i (j + 1) > lcsDp s1 s2 (i + 1) j then backtrackF s1 s2 f i (j + 1)
      else backtrackF s1 s2 f (i + 1) j
    | _, _ =>
      if lcsDp s1 s2 i (j + 1) > lcsDp s1 s2 (i + 1) j then backtrackF s1 s2 f i (j + 1)
      else backtrackF s1 s2 f (i + 1) j

/-- `alignment.compute_lcs`: LCS match pairs in increasing order. -/
def compute_lcs (s1 s2 : List String) : List (Nat × Nat) :=
  (backtrackF s1 s2 (s1.length + s2.length) s1.length s2.length).reverse

/-- `baseline_to_replay` dict lookup (keys are unique). -/
def b2r (ms : List (Nat × Nat)) (i : Nat) : Option Nat :=
  (ms.find? (fun p => p.1 = i)).map (fun p => p.2)

/-- `replay_to_baseline` dict lookup. -/
def r2b (ms : List (Nat × Nat)) (j : Nat) : Option Nat :=
  (ms.find? (fun p => p.2 = j)).map (fun p => p.1)

/-- `baseline_match_pos <= replay_match_pos` with Python's
`float('inf')` for a missing entry. -/
def posLe : Option Nat → Option Nat → Bool
  | Option.none, Option.none => true
  | Option.none, some _ => false
  | some _, Option.none => true
  | some x, some y => x ≤ y

/-- `idx not in map or map[idx] < k` in the removed/added guards. -/
def unmatchedBefore (o : Option Nat) (k : Nat) : Bool :=
  match o with
  | Option.none => true
  | some r => r < k

/-- The lockstep emission loop of `alignment.align_by_lcs` (fuelled;
`(m - bi) + (n - ri)` is enough fuel). -/
def alignWalkF (bd rd : List LLMCallDetail) (ms : List (Nat × Nat)) :
    Nat → Nat → Nat → List AlignedPair
  | 0, _, _ => []
  | f + 1, bi, ri =>
    if bi < bd.length ∨ ri < rd.length then
      if (bi, ri) ∈ ms then
        { baseline_detail := bd.get? bi
          replay_detail := rd.get? ri
          status := AlignStatus.MATCHED
          baseline_index := some bi
          replay_index := some ri } :: alignWalkF bd rd ms f (bi + 1) (ri + 1)
      else if bi < bd.length ∧ unmatchedBefore (b2r ms bi) ri then
        { baseline_detail := bd.get? bi
          replay_detail := Option.none
          status := AlignStatus.REMOVED
          baseline_index := some bi
          replay_index := Option.none } :: alignWalkF bd rd ms f (bi + 1) ri
      else if ri < rd.length ∧ unmatchedBefore (r2b ms ri) bi then
        { baseline_detail := Option.none
          replay_detail := rd.get? ri
          status := AlignStatus.ADDED
          baseline_index := Option.none
          replay_index := some ri } :: alignWalkF bd rd ms f bi (ri + 1)
      else
        if bi < bd.length ∧ posLe (b2r ms bi) (r2b ms ri) then
          alignWalkF bd rd ms f (bi + 1) ri
        else if ri < rd.length then
          alignWalkF bd rd ms f bi (ri + 1)
        else
          alignWalkF bd rd ms f (bi + 1) ri
    else []

/-- `alignment.align_by_lcs`. -/
def align_by_lcs (baseline_details replay_details : List LLMCallDetail) : List AlignedPair :=
  let baseline_fng := baseline_details.map (fun d => d.fingerprint)
  let replay_fng := replay_details.map (fun d => d.fingerprint)
  let lcs_matches := compute_lcs baseline_fng replay_fng
  alignWalkF baseline_details replay_details lcs_matches
    (baseline_details.length + replay_details.length) 0 0

/-! ### The comparator (`comparator.py`, `cascade.py`, `models/comparison.py`)

Float scores are modelled as exact rationals; the float literals `0.6`,
`0.4` and `0.85` become `3/5`, `2/5` and `85/100`. -/

/-- `MatchType` (`models/comparison.py`). -/
inductive MatchType where
  | EXACT
  | SIMILAR
  | MISMATCH
  | UNKNOWN
deriving DecidableEq, Repr

/-- `StepStatus` (`models/comparison.py`). -/
inductive StepStatus where
  | MATCH
  | DIVERGE
  | ADD
  | REMOVE
  | CASCADE
deriving DecidableEq, Repr

/-- `StepComparison` (`models/comparison.py`). -/
structure StepComparison where
  step_index : Nat
  baseline_node_id : Option Nat
  replay_node_id : Option Nat
  baseline_detail_id : Option Int
  replay_detail_id : Option Int
  status : StepStatus
  match_type : Option MatchType
  similarity_score : ℚ
  diff_summary : Option String := Option.none
deriving DecidableEq, Repr

/-- `ComparisonResult` (`models/comparison.py`).  Its `__post_init__` only
recomputes a summary field when the supplied value is `0`, and
`compare_recordings` always supplies values the recomputation would
reproduce, so it is not modelled. -/
structure ComparisonResult where
  comparison_id : String
  baseline_recording_id : String
  replay_recording_id : String
  overall_pass : Bool
  step_comparisons : List StepComparison
  root_cause_index : Option Nat := Option.none
  total_steps : Nat := 0
  matched_steps : Nat := 0
  mismatched_steps : Nat := 0
  added_steps : Nat := 0
  removed_steps : Nat := 0
  cascade_steps : Nat := 0
deriving DecidableEq, Repr

/-- The body of the loop of `cascade.mark_cascades`, written functionally:
`i` is the index of the head of the remaining list. -/
def markFrom (k : Nat) : List StepComparison → Nat → List StepComparison
  | [], _ => []
  | sc :: rest, i =>
      (if k + 1 ≤ i ∧ sc.status = StepStatus.DIVERGE
        then { sc with status := StepStatus.CASCADE } else sc)
        :: markFrom k rest (i + 1)

/-- `cascade.mark_cascades` (the in-place mutation becomes returning the
updated list). -/
def mark_cascades (scs : List StepComparison) : Option Nat → List StepComparison
  | Option.none => scs
  | some k => markFrom k scs 0

/-- One escaped character of Python `repr` of a string with quote
character `q`.  (`repr` of non-printable characters outside ASCII follows
Unicode printability rules that are not modelled; no value in this
development contains any.) -/
def pyReprEsc (q : Char) (c : Char) : String :=
  if c = '\\' then "\\\\"
  else if c = q then String.mk ['\\', q]
  else if c = '\n' then "\\n"
  else if c = '\r' then "\\r"
  else if c = '\t' then "\\t"
  else if c.toNat < 0x20 ∨ c.toNat = 0x7f then
    String.mk ['\\', 'x', Py.hexDigit (c.toNat / 16), Py.hexDigit (c.toNat % 16)]
  else String.mk [c]

/-- Python `repr` of a string: single quotes, switching to double quotes
when the string contains a single quote but no double quote. -/
def pyReprStr (s : String) : String :=
  let q : Char :=
    if s.data.contains (Char.ofNat 39) ∧ ¬ s.data.contains '"' then '"'
    else Char.ofNat 39
  String.mk [q] ++ String.join (s.data.map (pyReprEsc q)) ++ String.mk [q]

mutual

/-- Python `repr` on our value universe. -/
def pyRepr : Py.Val → String
  | .str s => pyReprStr s
  | .int n => toString n
  | .bool b => if b then "True" else "False"
  | .none => "None"
  | .list xs => "[" ++ Py.pyJoin ", " (pyReprList xs) ++ "]"
  | .dict kvs => "\x7b" ++ Py.pyJoin ", " (pyReprDict kvs) ++ "\x7d"

def pyReprList : List Py.Val → List String
  | [] => []
  | v :: vs => pyRepr v :: pyReprList vs

def pyReprDict : List (String × Py.Val) → List String
  | [] => []
  | p :: ps => (pyReprStr p.1 ++ ": " ++ pyRepr p.2) :: pyReprDict ps

end

/-- Python `str` on our value universe (`str` of a container is its
`repr`). -/
def pyStr : Py.Val → String
  | .str s => s
  | v => pyRepr v

mutual

/-- `Comparison._extract_text`. -/
def extract_text : Py.Val → String
  | .str s => s
  | .dict kvs =>
      let t1 := match kvs.find? (fun kv => kv.1 = "content") with
        | some kv => [pyStr kv.2]
        | Option.none => []
      let t2 := match kvs.find? (fun kv => kv.1 = "text") with
        | some kv => [pyStr kv.2]
        | Option.none => []
      Py.pyJoin " " ((t1 ++ t2 ++ extract_text_vals kvs).filter (fun t => t ≠ ""))
  | .list xs => Py.pyJoin " " ((extract_text_list xs).filter (fun t => t ≠ ""))
  | _ => ""

/-- The values loop of `_extract_text` on a dict: only dict and list values
are recursed into. -/
def extract_text_vals : List (String × Py.Val) → List String
  | [] => []
  | (_, v) :: rest =>
      match v with
      | .dict _ => extract_text v :: extract_text_vals rest
      | .list _ => extract_text v :: extract_text_vals rest
      | _ => extract_text_vals rest

def extract_text_list : List Py.Val → List String
  | [] => []
  | v :: vs => extract_text v :: extract_text_list vs

end

mutual

/-- `Comparison._extract_keys`: the set of dotted/indexed key paths. -/
def extract_keys : Py.Val → String → Finset String
  | .dict kvs, pre => extract_keys_dict kvs pre
  | .list xs, pre => extract_keys_list xs 0 pre
  | _, _ => ∅

def extract_keys_dict : List (String × Py.Val) → String → Finset String
  | [], _ => ∅
  | (k, v) :: rest, pre =>
      let kp := if pre = "" then k else pre ++ "." ++ k
      insert kp (extract_keys v kp) ∪ extract_keys_dict rest pre

def extract_keys_list : List Py.Val → Nat → String → Finset String
  | [], _, _ => ∅
  | v :: vs, i, pre =>
      extract_keys v (pre ++ "[" ++ toString i ++ "]") ∪
        extract_keys_list vs (i + 1) pre

end

/-- The key-path walk of `Comparison._get_type`: a missing key or an
indexing of a non-dict value is the caught `KeyError`/`TypeError`. -/
def getTypePath : Py.Val → List String → Option Py.Val
  | v, [] => some v
  | .dict kvs, part :: rest =>
      match kvs.find? (fun kv => kv.1 = part) with
      | some kv => getTypePath kv.2 rest
      | Option.none => Option.none
  | _, _ :: _ => Option.none

/-- Python `type(value).__name__` on our value universe. -/
def typeName : Py.Val → String
  | .str _ => "str"
  | .int _ => "int"
  | .bool _ => "bool"
  | .none => "NoneType"
  | .list _ => "list"
  | .dict _ => "dict"

/-- `Comparison._get_type`. -/
def get_type (data : List (String × Py.Val)) (key : String) : String :=
  match getTypePath (.dict data) (key.splitOn ".") with
  | some v => typeName v
  | Option.none => "unknown"

/-- The `Comparison` configuration (`comparator.py`).  `semantic_model` is
`None` by default and in every use in the repository, so
`_semantic_similarity` always falls back to
`difflib.SequenceMatcher(None, a, b).ratio()`; that stdlib function,
external to the repository, is the abstract parameter `ratioFn`. -/
structure Comparison where
  threshold : ℚ := 85 / 100
  ignore_fields : List String := []
  ratioFn : String → String → ℚ

/-- `Comparison._hash_response`. -/
def hash_response (response_data : List (String × Py.Val)) : String :=
  Sha256.sha256hex (Py.dumpsCanonical (.dict response_data))

/-- `Comparison._exact_match`. -/
def exact_match (baseline replay : LLMCallDetail) : ℚ :=
  if baseline.fingerprint ≠ replay.fingerprint then 0
  else if hash_response baseline.response_data
      = hash_response replay.response_data then 1
  else 0

/-- `Comparison._filter_response`. -/
def filter_response (cmp : Comparison) (data : List (String × Py.Val)) :
    List (String × Py.Val) :=
  data.filter (fun kv => kv.1 ∉ cmp.ignore_fields)

/-- `Comparison._structural_similarity`. -/
def structural_similarity (cmp : Comparison) (baseline replay : LLMCallDetail) : ℚ :=
  let baseline_filter := filter_response cmp baseline.response_data
  let replay_filter := filter_response cmp replay.response_data
  let baseline_keys := extract_keys (.dict baseline_filter) ""
  let replay_keys := extract_keys (.dict replay_filter) ""
  if baseline_keys = ∅ ∧ replay_keys = ∅ then 1
  else if baseline_keys = ∅ ∨ replay_keys = ∅ then 0
  else
    let intersection := (baseline_keys ∩ replay_keys).card
    let key_union := (baseline_keys ∪ replay_keys).card
    let key_score : ℚ :=
      if key_union > 0 then (intersection : ℚ) / (key_union : ℚ) else 0
    let common_keys := baseline_keys ∩ replay_keys
    let type_score : ℚ :=
      if common_keys ≠ ∅ then
        ((common_keys.filter (fun k =>
            get_type baseline_filter k = get_type replay_filter k)).card : ℚ)
          / (common_keys.card : ℚ)
      else 0
    3 / 5 * key_score + 2 / 5 * type_score

/-- `Comparison._semantic_similarity` (with `semantic_model = None`). -/
def semantic_similarity (cmp : Comparison)
    (baseline_resp replay_resp : List (String × Py.Val)) : ℚ :=
  let baseline_text := extract_text (.dict baseline_resp)
  let replay_text := extract_text (.dict replay_resp)
  if baseline_text = "" ∨ replay_text = "" then 0
  else cmp.ratioFn baseline_text replay_text

/-- Two-decimal fixed-point formatting of a non-negative rational score,
modelling the `:.2f` format of the diverge summary (CPython formats the
nearest binary double; on the scores exercised here the results agree). -/
def fmt2 (q : ℚ) : String :=
  let n : Int := Rat.floor (q * 100 + 1 / 2)
  let ip := n / 100
  let fp := (n % 100).toNat
  toString ip ++ "." ++ (if fp < 10 then "0" else "") ++ toString fp

/-- The diverge `diff_summary` f-string. -/
def divergeSummary (s t : ℚ) : String :=
  "Similarity " ++ fmt2 s ++ " below threshold " ++ fmt2 t

/-- `Comparison._compare_pair`.  In the fall-through branch the Python code
dereferences `pair.baseline_detail`/`pair.replay_detail` without a guard;
a missing detail there raises `AttributeError`. -/
def compare_pair (cmp : Comparison) (pair : AlignedPair) (si : Nat) :
    Except Py.Err StepComparison :=
  if pair.status = AlignStatus.REMOVED then
    .ok { step_index := si
          baseline_node_id := pair.baseline_detail.map (fun d => d.node_id)
          replay_node_id := Option.none
          status := StepStatus.REMOVE
          baseline_detail_id := pair.baseline_detail.bind (fun d => d.id)
          replay_detail_id := Option.none
          match_type := Option.none
          similarity_score := 0
          diff_summary := some "Step removed in replay" }
  else if pair.status = AlignStatus.ADDED then
    .ok { step_index := si
          baseline_node_id := Option.none
          replay_node_id := pair.replay_detail.map (fun d => d.node_id)
          status := StepStatus.ADD
          baseline_detail_id := Option.none
          replay_detail_id := pair.replay_detail.bind (fun d => d.id)
          match_type := Option.none
          similarity_score := 0
          diff_summary := some "Step added in replay" }
  else
    match pair.baseline_detail, pair.replay_detail with
    | some baseline, some replay =>
      let exact_score := exact_match baseline replay
      if exact_score = 1 then
        .ok { step_index := si
              baseline_node_id := some baseline.node_id
              replay_node_id := some replay.node_id
              status := StepStatus.MATCH
              baseline_detail_id := baseline.id
              replay_detail_id := replay.id
              match_type := some MatchType.EXACT
              similarity_score := 1
              diff_summary := Option.none }
      else
        let structural_score := structural_similarity cmp baseline replay
        let semantic_score :=
          semantic_similarity cmp baseline.response_data replay.response_data
        let combined_score := min structural_score semantic_score
        if cmp.threshold ≤ combined_score then
          .ok { step_index := si
                baseline_node_id := some baseline.node_id
                replay_node_id := some replay.node_id
                status := StepStatus.MATCH
                baseline_detail_id := baseline.id
                replay_detail_id := replay.id
                match_type := some MatchType.SIMILAR
                similarity_score := combined_score
                diff_summary := Option.none }
        else
          .ok { step_index := si
                baseline_node_id := some baseline.node_id
                replay_node_id := some replay.node_id
                status := StepStatus.DIVERGE
                baseline_detail_id := baseline.id
                replay_detail_id := replay.id
                match_type := Option.none
                similarity_score := combined_score
                diff_summary := some (divergeSummary combined_score cmp.threshold) }
    | _, _ => .error Py.Err.attributeError

/-- The scoring loop of `compare_recordings`: the first raised exception
propagates. -/
def compare_pairs (cmp : Comparison) :
    List AlignedPair → Nat → Except Py.Err (List StepComparison)
  | [], _ => .ok []
  | p :: rest, i =>
      match compare_pair cmp p i with
      | .error e => .error e
      | .ok sc =>
          match compare_pairs cmp rest (i + 1) with
          | .error e => .error e
          | .ok scs => .ok (sc :: scs)

/-- The root-cause loop of `compare_recordings` (lines 31-36): the first
index whose status is DIVERGE, ADD or REMOVE. -/
def rootCauseIdx : List StepComparison → Option Nat
  | [] => Option.none
  | sc :: rest =>
      if sc.status = StepStatus.DIVERGE ∨ sc.status = StepStatus.ADD
          ∨ sc.status = StepStatus.REMOVE then some 0
      else (rootCauseIdx rest).map (fun i => i + 1)

/-- `Comparison.compare_recordings`.  The summary counts are taken before
`mark_cascades` runs, exactly as in the source; the subscript
`baseline_details[0]` inside the `comparison_id` f-string is evaluated
unconditionally and raises `IndexError` on an empty baseline. -/
def compare_recordings (cmp : Comparison)
    (baseline_details replay_details : List LLMCallDetail) :
    Except Py.Err ComparisonResult :=
  let aligned_pairs := align_by_lcs baseline_details replay_details
  match compare_pairs cmp aligned_pairs 0 with
  | .error e => .error e
  | .ok step_comparisons =>
    let total_steps := step_comparisons.length
    let matched_steps := step_comparisons.countP
      (fun sc => sc.status = StepStatus.MATCH)
    let mismatched_steps := step_comparisons.countP
      (fun sc => sc.status = StepStatus.DIVERGE)
    let added_steps := step_comparisons.countP
      (fun sc => sc.status = StepStatus.ADD)
    let removed_steps := step_comparisons.countP
      (fun sc => sc.status = StepStatus.REMOVE)
    let root_cause_index := rootCauseIdx step_comparisons
    let marked := mark_cascades step_comparisons root_cause_index
    let cascade_steps := marked.countP
      (fun sc => sc.status = StepStatus.CASCADE)
    let overall_pass :=
      mismatched_steps == 0 && added_steps == 0 && removed_steps == 0
    match baseline_details with
    | [] => .error Py.Err.indexError
    | b0 :: _ =>
      .ok { comparison_id :=
              "cmp_" ++ (Sha256.sha256hex b0.recording_id).take 12
            baseline_recording_id := b0.recording_id
            replay_recording_id := match replay_details with
              | [] => ""
              | r0 :: _ => r0.recording_id
            overall_pass := overall_pass
            step_comparisons := marked
            root_cause_index := root_cause_index
            total_steps := total_steps
            matched_steps := matched_steps
            mismatched_steps := mismatched_steps
            added_steps := added_steps
            removed_steps := removed_steps
            cascade_steps := cascade_steps }

/-- A fixed comparator configuration for concrete runs (default threshold
and ignore list; an arbitrary ratio function, unused on exact matches). -/
def cmpFixed : Comparison := { ratioFn := fun _ _ => 0 }

/-- A small concrete call detail. -/
def sampleDetail : LLMCallDetail :=
  { id := Option.none
    node_id := 1
    recording_id := "r"
    step_index := 0
    provider := "p"
    method := "m"
    model := "mo"
    fingerprint := "f"
    request_params := []
    response_data := [] }

/-- The aligned pair matching `sampleDetail` against itself. -/
def samplePair : AlignedPair :=
  { baseline_detail := some sampleDetail
    replay_detail := some sampleDetail
    status := AlignStatus.MATCHED
    baseline_index := some 0
    replay_index := some 0 }

/-- The step comparison produced for `samplePair`. -/
def sampleStep : StepComparison :=
  { step_index := 0
    baseline_node_id := some 1
    replay_node_id := some 1
    status := StepStatus.MATCH
    baseline_detail_id := Option.none
    replay_detail_id := Option.none
    match_type := some MatchType.EXACT
    similarity_score := 1
    diff_summary := Option.none }

/-- The comparison result of `[sampleDetail]` against itself. -/
def sampleResult : ComparisonResult :=
  { comparison_id := "cmp_" ++ (Sha256.sha256hex "r").take 12
    baseline_recording_id := "r"
    replay_recording_id := "r"
    overall_pass := true
    step_comparisons := [sampleStep]
    root_cause_index := Option.none
    total_steps := 1
    matched_steps := 1
    mismatched_steps := 0
    added_steps := 0
    removed_steps := 0
    cascade_steps := 0 }


/-- Backtracking with just enough fuel. -/
def backtrack (s1 s2 : List String) (i j : Nat) : List (Nat × Nat) :=
  backtrackF s1 s2 (i + j) i j

/-- Fixture request parameters for the fingerprint witnesses. -/
def fpParams : List (String × Py.Val) :=
  [("model", .str "gpt-4"),
   ("messages", .list [.dict [("role", .str "user"), ("content", .str "hi")]]),
   ("tools", .list [])]

end AgentTest

/-! ## `agentgit`: eventbus, DAG store and tracer

The SQLite connection is modelled as a pair of database states: `committed`
(what a rollback restores) and `pending` (what the connection currently
sees; statements write here, `commit` publishes it).  Wall-clock columns
(`timestamp`, `created_at` of new rows) and unused columns
(`checkpoint_sha`, `state_hash`, `token_count`) are not modelled: no claim
depends on them. -/

namespace AgentGit

/-- Modelled from the spec: the enriched `agentgit/event.py` event types
(the module is absent from `src/`; the older copy `src/src/event.py` has
the same `EventType` members). -/
inductive EventType where
  | USER_INPUT
  | LLM_CALL_START
  | LLM_CALL_END
  | LLM_STREAM_CHUNK
  | LLM_STREAM_END
  | LLM_ERROR
  | TOOL_CALL_START
  | TOOL_CALL_END
  | TOOL_ERROR
  | AGENT_TURN_START
  | AGENT_TURN_END
  | AGENT_THINKING
deriving DecidableEq, Repr

/-- Modelled from the spec: the enriched `agentgit/event.py` `Event`
record (absent from `src/`; the older `src/src/event.py` copy lacks the
`user_id`/`session_id` fields that `tracer.py` and `session.py` read). -/
structure Event where
  type : EventType
  user_id : Option String := Option.none
  session_id : Option String := Option.none
  content : Option String := Option.none
  text : Option String := Option.none
  messages : Option (List Py.Val) := Option.none
  tool_name : Option String := Option.none
  tool_args : Option Py.Val := Option.none
  error : Option String := Option.none
  model : Option String := Option.none
  usage : Option Py.Val := Option.none
  duration_ms : Int := 0
  metadata : List (String × Py.Val) := []

/-- Python `x or default` on an optional string (`None` and `""` are both
falsy). -/
def pyOrStr (o : Option String) (d : String) : String :=
  match o with
  | some x => if x = "" then d else x
  | Option.none => d

def digitsToNat (ds : List Char) : Nat :=
  ds.foldl (fun acc c => acc * 10 + (c.toNat - 48)) 0

/-- Python `int(s)` on the decimal strings produced by `str(rowid)` (other
inputs never reach it in the modelled flows). -/
def strToInt (s : String) : Int :=
  match s.data with
  | '-' :: ds => - (digitsToNat ds : Int)
  | ds => (digitsToNat ds : Int)

/-- `int(x) if x else None` on an optional string. -/
def pyOptInt (o : Option String) : Option Int :=
  match o with
  | some p => if p = "" then Option.none else some (strToInt p)
  | Option.none => Option.none

/-- A row of the `nodes` table. -/
structure NodeRow where
  id : Nat
  user_id : String
  session_id : String
  parent_id : Option Int
  branch_id : Nat
  action_type : String
  content : String
  triggered_by : String
  caller_context : String
  duration_ms : Py.Val

/-- A row of the `branches` table. -/
structure BranchRow where
  branch_id : Nat
  user_id : String
  session_id : String
  name : String
  head_node_id : Option Int
  base_node_id : Option Int
  status : String
  intent : String
  created_at : Int
deriving DecidableEq, Repr

structure DB where
  nodes : List NodeRow := []
  branches : List BranchRow := []

structure Conn where
  committed : DB
  pending : DB

def commit (c : Conn) : Conn := { committed := c.pending, pending := c.pending }

def rollback (c : Conn) : Conn := { committed := c.committed, pending := c.committed }

/-- The `Branch` dataclass as produced by `DagStore._row_to_branch`: the
head and base ids come back as strings, and both `NULL` and `0` map to
`None` (`str(row[4]) if row[4] else None`). -/
structure Branch where
  branch_id : Nat
  user_id : String
  session_id : String
  name : String
  head_node_id : Option String
  base_node_id : Option String
  status : String
deriving DecidableEq, Repr

def rowToBranch (r : BranchRow) : Branch :=
  { branch_id := r.branch_id
    user_id := r.user_id
    session_id := r.session_id
    name := r.name
    head_node_id := match r.head_node_id with
      | some n => if n = 0 then Option.none else some (toString n)
      | Option.none => Option.none
    base_node_id := match r.base_node_id with
      | some n => if n = 0 then Option.none else some (toString n)
      | Option.none => Option.none
    status := r.status }

/-- `DagStore.get_active_branch`: `ORDER BY created_at DESC LIMIT 1` over
the active branches of the session (reads the connection's own pending
state).  SQLite leaves the order of ties unspecified; this model picks the
last row among those with maximal `created_at`. -/
def get_active_branch (db : DB) (u s : String) : Option Branch :=
  match db.branches.filter
      (fun b => b.user_id = u ∧ b.session_id = s ∧ b.status = "active") with
  | [] => Option.none
  | b :: rest => some (rowToBranch (rest.foldl
      (fun best x => if best.created_at ≤ x.created_at then x else best) b))

/-- The rowid SQLite assigns to the next inserted node. -/
def nextNodeId (db : DB) : Nat := db.nodes.foldl (fun m r => max m r.id) 0 + 1

/-- `DagStore.insert_node`: executes the INSERT, then **commits on its own
connection** (line 52), and returns `cursor.lastrowid`. -/
def insert_node (c : Conn) (u s : String) (parent_id : Option Int)
    (branch_id : Nat) (action_type content triggered_by caller_context : String)
    (duration_ms : Py.Val) : Conn × Nat :=
  let newId := nextNodeId c.pending
  let row : NodeRow :=
    { id := newId, user_id := u, session_id := s, parent_id := parent_id,
      branch_id := branch_id, action_type := action_type, content := content,
      triggered_by := triggered_by, caller_context := caller_context,
      duration_ms := duration_ms }
  (commit { c with pending := { c.pending with nodes := c.pending.nodes ++ [row] } },
    newId)

/-- `DagStore.update_branch_head`: executes the UPDATE, then **commits on
its own connection** (line 169). -/
def update_branch_head (c : Conn) (u s : String) (branch_id : Nat)
    (new_head_id : Nat) : Conn :=
  let branches := c.pending.branches.map (fun b =>
    if b.user_id = u ∧ b.session_id = s ∧ b.branch_id = branch_id
    then { b with head_node_id := some (new_head_id : Int) } else b)
  commit { c with pending := { c.pending with branches := branches } }

def optStrVal (o : Option String) : Py.Val :=
  match o with
  | some s => .str s
  | Option.none => .none

def optVal (o : Option Py.Val) : Py.Val := o.getD .none

/-- `event.metadata.get(k) if event.metadata else None`. -/
def metaGet (ev : Event) (k : String) : Py.Val :=
  if ev.metadata.isEmpty then Py.Val.none else Py.dictGet ev.metadata k Py.Val.none

def evUser (ev : Event) : String := pyOrStr ev.user_id "default"

def evSession (ev : Event) : String := pyOrStr ev.session_id "default"

/-- `Tracer._create_node` (the tracer state is its `current_turn`): query
the active branch, drop the event if there is none, otherwise insert a
node whose parent is the branch head and move the branch head to the new
node's id. -/
def create_node (turn : Nat) (c : Conn) (u s action_type triggered_by : String)
    (content : List (String × Py.Val)) : Conn :=
  match get_active_branch c.pending u s with
  | Option.none => c
  | some branch =>
    let parent_id := branch.head_node_id
    let res := insert_node c u s (pyOptInt parent_id) branch.branch_id
      action_type (Py.dumpsDefault (.dict content)) triggered_by
      (Py.dumpsDefault (.dict [("turn", Py.Val.int turn)]))
      (Py.dictGet content "duration_ms" (.int 0))
    update_branch_head res.1 u s branch.branch_id res.2

/-- `Tracer.handle_event` with its twelve handlers; returns the updated
`current_turn` and connection. -/
def handle_event (turn : Nat) (c : Conn) (ev : Event) : Nat × Conn :=
  match ev.type with
  | .USER_INPUT =>
      (turn, create_node turn c (evUser ev) (evSession ev) "user_input"
        "human_ui" [("message", optStrVal ev.content)])
  | .LLM_CALL_START =>
      (turn, create_node turn c (evUser ev) (evSession ev) "llm_call" "system"
        [("model", optStrVal ev.model),
         ("message_count", Py.Val.int (match ev.messages with
           | some l => l.length
           | Option.none => 0))])
  | .LLM_CALL_END =>
      (turn, create_node turn c (evUser ev) (evSession ev) "llm_response"
        "system"
        [("model", optStrVal ev.model), ("response", optStrVal ev.content),
         ("usage", optVal ev.usage), ("duration_ms", .int ev.duration_ms)])
  | .LLM_STREAM_CHUNK => (turn, c)
  | .LLM_STREAM_END =>
      (turn, create_node turn c (evUser ev) (evSession ev) "llm_response"
        "system" [("response", optStrVal ev.content), ("streamed", .bool true)])
  | .LLM_ERROR =>
      (turn, create_node turn c (evUser ev) (evSession ev) "llm_error" "system"
        [("error", optStrVal ev.error), ("model", optStrVal ev.model)])
  | .TOOL_CALL_START =>
      (turn, create_node turn c (evUser ev) (evSession ev) "tool_call"
        "agent_tool"
        [("tool", optStrVal ev.tool_name), ("args", optVal ev.tool_args),
         ("tool_call_id", metaGet ev "tool_call_id")])
  | .TOOL_CALL_END =>
      (turn, create_node turn c (evUser ev) (evSession ev) "tool_result"
        "agent_tool"
        [("tool", optStrVal ev.tool_name), ("result", optStrVal ev.content),
         ("tool_call_id", metaGet ev "tool_call_id"),
         ("duration_ms", .int ev.duration_ms)])
  | .TOOL_ERROR =>
      (turn, create_node turn c (evUser ev) (evSession ev) "tool_error"
        "agent_tool"
        [("tool", optStrVal ev.tool_name), ("error", optStrVal ev.error)])
  | .AGENT_TURN_START => (turn + 1, c)
  | .AGENT_TURN_END =>
      (turn, create_node turn c (evUser ev) (evSession ev) "agent_turn_end"
        "system" [])
  | .AGENT_THINKING =>
      (turn, create_node turn c (evUser ev) (evSession ev) "llm_response"
        "system"
        [("stage", .str "thinking"), ("reasoning", optStrVal ev.content)])

/-- The subscriber loop of `Eventbus.publish`: each callback transforms
the shared connection and may raise; the first raise aborts the loop. -/
def runCbs : Conn → List (Conn → Conn × Option Py.Err) → Conn × Option Py.Err
  | c, [] => (c, Option.none)
  | c, cb :: rest =>
      match cb c with
      | (c', Option.none) => runCbs c' rest
      | (c', some e) => (c', some e)

/-- `Eventbus.publish` on a bus bound to a connection, for the subscriber
list of the event's type: run all callbacks, commit if all succeed,
roll back and re-raise if any raises. -/
def publish (c : Conn) (cbs : List (Conn → Conn × Option Py.Err)) :
    Conn × Option Py.Err :=
  match runCbs c cbs with
  | (c', Option.none) => (commit c', Option.none)
  | (c', some e) => (rollback c', some e)

/-- A session's single active branch, not yet holding any node. -/
def branchRowC1 : BranchRow :=
  { branch_id := 1, user_id := "u", session_id := "s", name := "main",
    head_node_id := Option.none, base_node_id := Option.none,
    status := "active", intent := "", created_at := 0 }

def connC1 : Conn :=
  { committed := { nodes := [], branches := [branchRowC1] },
    pending := { nodes := [], branches := [branchRowC1] } }

def evC1 : Event :=
  { type := .LLM_CALL_END, user_id := some "u", session_id := some "s",
    content := some "hi", model := some "gpt" }

/-- The tracer as an eventbus subscriber (`current_turn = 0`). -/
def cbTracerC1 : Conn → Conn × Option Py.Err :=
  fun c => ((handle_event 0 c evC1).2, Option.none)

/-- A second subscriber of the same event that raises. -/
def cbFailC1 : Conn → Conn × Option Py.Err :=
  fun c => (c, some Py.Err.runtimeError)

/-- A default-session active branch whose head is node `7`. -/
def branchRowC7 : BranchRow :=
  { branch_id := 2, user_id := "default", session_id := "default",
    name := "main", head_node_id := some 7, base_node_id := Option.none,
    status := "active", intent := "", created_at := 3 }

def connC7 : Conn :=
  { committed := { nodes := [], branches := [branchRowC7] },
    pending := { nodes := [], branches := [branchRowC7] } }

end AgentGit

/-! ## `agenttest/session.py`: the recording session

Only the state read or written by `_on_llm_call_end` and the
recording-lifecycle methods is modelled: the active recording, the
`at_recordings` and `at_llm_call_details` tables, and the agentgit
connection the branch head is read from.  The test store's commit
behaviour is not modelled (rows live in one list): the claim is about the
rows inserted on the connection, not their commit visibility. -/

namespace AgentTest

/-- `Recording` (`models/recording.py`), reduced to the fields the session
logic reads or writes. -/
structure Recording where
  recording_id : String
  name : String := ""
  branch_id : Nat := 0
  status : String := "in_progress"
  step_count : Nat := 0
deriving DecidableEq, Repr

structure Session where
  user_id : String
  session_id : String
  active : Option Recording := Option.none
  recordings : List Recording := []
  details : List LLMCallDetail := []
  ag : AgentGit.Conn

/-- `meta.get(k, d)` expecting a string (the session code only ever puts
strings under these keys). -/
def getStrD (meta : List (String × Py.Val)) (k d : String) : String :=
  match Py.dictGet meta k (.str d) with
  | .str s => s
  | _ => d

/-- `meta.get(k, {})` expecting a dict. -/
def getDictD (meta : List (String × Py.Val)) (k : String) :
    List (String × Py.Val) :=
  match Py.dictGet meta k (.dict []) with
  | .dict l => l
  | _ => []

/-- `meta.get(k, False)` expecting a bool. -/
def getBoolD (meta : List (String × Py.Val)) (k : String) : Bool :=
  match Py.dictGet meta k (.bool false) with
  | .bool b => b
  | _ => false

/-- `meta.get(k)` expecting an optional string. -/
def getOptStr (meta : List (String × Py.Val)) (k : String) : Option String :=
  match Py.dictGet meta k .none with
  | .str s => some s
  | _ => Option.none

/-- The sidecar detail built by `_on_llm_call_end`, with the rowid the
insert assigns written back into `id` (`detail.id = detail_id`). -/
def llmDetail (sess : Session) (rec : Recording) (ev : AgentGit.Event)
    (h : String) : LLMCallDetail :=
  { id := some ((sess.details.length + 1 : Nat) : Int)
    node_id := (AgentGit.strToInt h).toNat
    recording_id := rec.recording_id
    step_index := rec.step_count
    provider := getStrD ev.metadata "provider" "unknown"
    method := getStrD ev.metadata "method" "unknown"
    model := AgentGit.pyOrStr ev.model "unknown"
    fingerprint := getStrD ev.metadata "fingerprint" ""
    request_params := getDictD ev.metadata "request_params"
    response_data := getDictD ev.metadata "response_data"
    is_streaming := getBoolD ev.metadata "is_streaming"
    stream_id := getOptStr ev.metadata "stream_id"
    duration_ms := ev.duration_ms
    token_usage := ev.usage
    error := Option.none
    metadata := [] }

/-- `AgentTestSession._on_llm_call_end` (lines 169-233): skip unless a
recording is active and the session's active branch has a truthy head;
otherwise insert a sidecar detail with `step_index = step_count`, then
increment the recording's step count (in memory and in its table row). -/
def on_llm_call_end (sess : Session) (ev : AgentGit.Event) : Session :=
  match sess.active with
  | Option.none => sess
  | some rec =>
    match AgentGit.get_active_branch sess.ag.pending
        (AgentGit.pyOrStr ev.user_id sess.user_id)
        (AgentGit.pyOrStr ev.session_id sess.session_id) with
    | Option.none => sess
    | some branch =>
      match branch.head_node_id with
      | Option.none => sess
      | some h =>
        if h = "" then sess
        else
          { sess with
            details := sess.details ++ [llmDetail sess rec ev h]
            active := some { rec with step_count := rec.step_count + 1 }
            recordings := sess.recordings.map (fun r =>
              if r.recording_id = rec.recording_id
              then { r with status := "in_progress"
                            step_count := rec.step_count + 1 }
              else r) }

/-- `create_recording` (lines 103-138) as it affects this state: a fresh
recording with `step_count = 0` is stored and activated.  The generated
uuid id and the agentgit branch id are inputs; the branch creation happens
on the agentgit side and is not needed here. -/
def create_recording (sess : Session) (rid name : String) (branch_id : Nat) :
    Session :=
  let recording : Recording :=
    { recording_id := rid, name := name, branch_id := branch_id,
      status := "in_progress", step_count := 0 }
  { sess with recordings := sess.recordings ++ [recording]
              active := some recording }

/-- `complete_recording` (lines 140-165): mark completed/failed and
deactivate. -/
def complete_recording (sess : Session) (rid : String)
    (error : Option String) : Session :=
  let status := if error.isSome then "failed" else "completed"
  { sess with
    active := Option.none
    recordings := sess.recordings.map (fun r =>
      if r.recording_id = rid then { r with status := status } else r) }

/-- The session operations a recording lifecycle interleaves. -/
inductive SessionOp where
  | startRec (rid : String) (name : String) (branch_id : Nat)
  | endRec (rid : String) (error : Option String)
  | llmEnd (ev : AgentGit.Event)

def runOp (sess : Session) : SessionOp → Session
  | .startRec rid name bid => create_recording sess rid name bid
  | .endRec rid err => complete_recording sess rid err
  | .llmEnd ev => on_llm_call_end sess ev

def runOps (sess : Session) : List SessionOp → Session
  | [] => sess
  | op :: rest => runOps (runOp sess op) rest

def startRids : List SessionOp → List String
  | [] => []
  | .startRec rid _ _ :: rest => rid :: startRids rest
  | _ :: rest => startRids rest

/-- The `step_index` column of the detail rows of one recording, in
insertion order. -/
def detailIndices (sess : Session) (rid : String) : List Nat :=
  (sess.details.filter (fun d => d.recording_id = rid)).map
    (fun d => d.step_index)


/-- The step-index invariant: the active recording's details enumerate
`0..step_count-1`; every recording's details enumerate an initial segment;
recordings not yet started have no details. -/
abbrev StepInv (sess : Session) (pending : List String) : Prop :=
  (∀ rec, sess.active = some rec →
    detailIndices sess rec.recording_id = List.range rec.step_count ∧
    rec.recording_id ∉ pending) ∧
  (∀ rid, ∃ n, detailIndices sess rid = List.range n) ∧
  (∀ rid ∈ pending, detailIndices sess rid = [])

/-- An agentgit branch row for session `("u", "s")`, active, head node 7. -/
def branchRowC8 : AgentGit.BranchRow :=
  { branch_id := 1
    user_id := "u"
    session_id := "s"
    name := "main"
    head_node_id := some 7
    base_node_id := Option.none
    status := "active"
    intent := ""
    created_at := 0 }

def dbC8 : AgentGit.DB := { nodes := [], branches := [branchRowC8] }

/-- A fresh session over an agentgit connection whose `("u", "s")` branch
is active with head node `7`. -/
def sessC8 : Session :=
  { user_id := "u"
    session_id := "s"
    ag := { committed := dbC8, pending := dbC8 } }

def evC8 : AgentGit.Event :=
  { type := .LLM_CALL_END, model := some "gpt",
    metadata := [("provider", .str "openai"), ("fingerprint", .str "f")] }

def opsC8 : List SessionOp :=
  [.startRec "r1" "n" 1, .llmEnd evC8, .llmEnd evC8, .endRec "r1" Option.none]


end AgentTest

namespace Py

theorem hexVal_hexDigit (k : Nat) (h : k < 16) : hexVal (hexDigit k) = k := by
  interval_cases k <;> decide



theorem escDecode_cons_ne (c : Char) (rest : List Char) (h : c ≠ '\\') :
    escDecode (c :: rest) = c.toNat :: escDecode rest :=
  escDecode.eq_5 c rest (fun _ _ _ _ _ hc _ => h hc) (fun _ hc _ => h hc)
    (fun _ _ hc _ => h hc) (fun hc _ => h hc)

theorem escDecode_escChar (c : Char) (rest : List Char) :
    escDecode (escChar c ++ rest) = cuEncode c ++ escDecode rest := by
  have hv : c.toNat < 0xd800 ∨ (0xdfff < c.toNat ∧ c.toNat < 0x110000) := by
    have h := c.valid
    unfold UInt32.isValidChar Nat.isValidChar at h
    exact h
  by_cases h1 : c = '\\'
  · subst h1
    rfl
  by_cases h2 : c = '"'
  · subst h2
    rfl
  by_cases h3 : c = '\n'
  · subst h3
    rfl
  by_cases h4 : c = '\r'
  · subst h4
    rfl
  by_cases h5 : c = '\t'
  · subst h5
    rfl
  by_cases h6 : c.toNat = 8
  · have hc : c = Char.ofNat 8 := by
      rw [← h6, Char.ofNat_toNat]
    subst hc
    rfl
  by_cases h7 : c.toNat = 12
  · have hc : c = Char.ofNat 12 := by
      rw [← h7, Char.ofNat_toNat]
    subst hc
    rfl
  have hesc : escChar c =
      if 0x20 ≤ c.toNat ∧ c.toNat ≤ 0x7e then [c]
      else if c.toNat < 0x10000 then '\\' :: 'u' :: hex4 c.toNat
      else ('\\' :: 'u' :: hex4 (0xd800 + (c.toNat - 0x10000) / 1024)) ++
           ('\\' :: 'u' :: hex4 (0xdc00 + (c.toNat - 0x10000) % 1024)) := by
    unfold escChar
    rw [if_neg h1, if_neg h2, if_neg h3, if_neg h4, if_neg h5, if_neg h6, if_neg h7]
  rw [hesc]
  by_cases h8 : 0x20 ≤ c.toNat ∧ c.toNat ≤ 0x7e
  · rw [if_pos h8, List.cons_append, List.nil_append, escDecode_cons_ne c rest h1,
        cuEncode, if_pos (by omega)]
    rfl
  rw [if_neg h8]
  by_cases h9 : c.toNat < 0x10000
  · rw [if_pos h9, hex4]
    simp only [List.cons_append, List.nil_append]
    rw [escDecode.eq_1]
    rw [hexVal_hexDigit _ (Nat.mod_lt _ (by norm_num)),
        hexVal_hexDigit _ (Nat.mod_lt _ (by norm_num)),
        hexVal_hexDigit _ (Nat.mod_lt _ (by norm_num)),
        hexVal_hexDigit _ (Nat.mod_lt _ (by norm_num))]
    rw [cuEncode, if_pos h9]
    simp only [List.cons_append, List.nil_append, List.cons.injEq, and_true]
    omega
  · rw [if_neg h9, hex4, hex4]
    simp only [List.cons_append, List.nil_append, List.append_assoc]
    rw [escDecode.eq_1]
    rw [hexVal_hexDigit _ (Nat.mod_lt _ (by norm_num)),
        hexVal_hexDigit _ (Nat.mod_lt _ (by norm_num)),
        hexVal_hexDigit _ (Nat.mod_lt _ (by norm_num)),
        hexVal_hexDigit _ (Nat.mod_lt _ (by norm_num))]
    rw [escDecode.eq_1]
    rw [hexVal_hexDigit _ (Nat.mod_lt _ (by norm_num)),
        hexVal_hexDigit _ (Nat.mod_lt _ (by norm_num)),
        hexVal_hexDigit _ (Nat.mod_lt _ (by norm_num)),
        hexVal_hexDigit _ (Nat.mod_lt _ (by norm_num))]
    rw [cuEncode, if_neg (by omega)]
    simp only [List.cons_append, List.nil_append, List.cons.injEq]
    refine ⟨by omega, by omega, trivial⟩

theorem escChar_of_plain (c : Char) (h1 : c ≠ '\\') (h2 : c ≠ '"') (h3 : c ≠ '\n')
    (h4 : c ≠ '\r') (h5 : c ≠ '\t') (h6 : c.toNat ≠ 8) (h7 : c.toNat ≠ 12) :
    escChar c =
      if 0x20 ≤ c.toNat ∧ c.toNat ≤ 0x7e then [c]
      else if c.toNat < 0x10000 then '\\' :: 'u' :: hex4 c.toNat
      else ('\\' :: 'u' :: hex4 (0xd800 + (c.toNat - 0x10000) / 1024)) ++
           ('\\' :: 'u' :: hex4 (0xdc00 + (c.toNat - 0x10000) % 1024)) := by
  unfold escChar
  rw [if_neg h1, if_neg h2, if_neg h3, if_neg h4, if_neg h5, if_neg h6, if_neg h7]

theorem cuDecode_cuEncode (c : Char) (t : List Nat) :
    cuDecode (cuEncode c ++ t) = c :: cuDecode t := by
  have hv : c.toNat < 0xd800 ∨ (0xdfff < c.toNat ∧ c.toNat < 0x110000) := by
    have h := c.valid
    unfold UInt32.isValidChar Nat.isValidChar at h
    exact h
  have hofn : Char.ofNat c.toNat = c := Char.ofNat_toNat c
  rw [cuEncode]
  by_cases h : c.toNat < 0x10000
  · rw [if_pos h]
    match t with
    | [] =>
      have h1 : cuDecode [c.toNat] = [Char.ofNat c.toNat] := rfl
      rw [List.singleton_append, h1, hofn]
      rfl
    | w :: t' =>
      rw [List.singleton_append, cuDecode.eq_3, if_neg (by omega), hofn]
  · rw [if_neg h]
    have hcond : 0xd800 ≤ 0xd800 + (c.toNat - 0x10000) / 1024 ∧
        0xd800 + (c.toNat - 0x10000) / 1024 < 0xdc00 := by
      omega
    have harg : 0x10000 + (0xd800 + (c.toNat - 0x10000) / 1024 - 0xd800) * 1024 +
        (0xdc00 + (c.toNat - 0x10000) % 1024 - 0xdc00) = c.toNat := by
      omega
    rw [List.cons_append, List.cons_append, List.nil_append, cuDecode.eq_3, if_pos hcond,
        harg, hofn]

theorem escDecode_flat (l : List Char) (rest : List Char) :
    escDecode (l.flatMap escChar ++ rest) = l.flatMap cuEncode ++ escDecode rest := by
  induction l with
  | nil => simp
  | cons c cs ih =>
    rw [List.flatMap_cons, List.flatMap_cons, List.append_assoc, escDecode_escChar,
        ih, List.append_assoc]

theorem cuDecode_flat (l : List Char) : cuDecode (l.flatMap cuEncode) = l := by
  induction l with
  | nil => rfl
  | cons c cs ih =>
    rw [List.flatMap_cons, cuDecode_cuEncode, ih]

theorem unescape_escapeStr (s : String) : unescape (escapeStr s) = s.data := by
  rw [unescape, escapeStr]
  have h := escDecode_flat s.data []
  rw [List.append_nil] at h
  rw [h]
  show cuDecode (s.data.flatMap cuEncode ++ []) = s.data
  rw [List.append_nil, cuDecode_flat]

theorem escapeStr_inj (s t : String) (h : escapeStr s = escapeStr t) : s = t := by
  have hs := unescape_escapeStr s
  have ht := unescape_escapeStr t
  rw [h, ht] at hs
  exact String.ext hs.symm


/-- Escape units are aligned: if two escaped streams agree, their first
units agree. -/
theorem escChar_append_inj (a b : Char) (X Y : List Char)
    (h : escChar a ++ X = escChar b ++ Y) : a = b ∧ X = Y := by
  have hva : a.toNat < 0xd800 ∨ (0xdfff < a.toNat ∧ a.toNat < 0x110000) := by
    have h' := a.valid
    unfold UInt32.isValidChar Nat.isValidChar at h'
    exact h'
  have hvb : b.toNat < 0xd800 ∨ (0xdfff < b.toNat ∧ b.toNat < 0x110000) := by
    have h' := b.valid
    unfold UInt32.isValidChar Nat.isValidChar at h'
    exact h'
  have hd := congrArg escDecode h
  rw [escDecode_escChar, escDecode_escChar] at hd
  have hab : a = b := by
    rw [cuEncode, cuEncode] at hd
    by_cases ha : a.toNat < 0x10000 <;> by_cases hb : b.toNat < 0x10000
    · rw [if_pos ha, if_pos hb] at hd
      simp only [List.cons_append, List.nil_append, List.cons.injEq] at hd
      rw [← Char.ofNat_toNat a, ← Char.ofNat_toNat b, hd.1]
    · rw [if_pos ha, if_neg hb] at hd
      simp only [List.cons_append, List.nil_append, List.cons.injEq] at hd
      omega
    · rw [if_neg ha, if_pos hb] at hd
      simp only [List.cons_append, List.nil_append, List.cons.injEq] at hd
      omega
    · rw [if_neg ha, if_neg hb] at hd
      simp only [List.cons_append, List.nil_append, List.cons.injEq] at hd
      have : a.toNat = b.toNat := by omega
      rw [← Char.ofNat_toNat a, ← Char.ofNat_toNat b, this]
  subst hab
  exact ⟨rfl, List.append_cancel_left h⟩

/-- No escape unit starts with a raw quote. -/
theorem escChar_append_ne_quote_cons (c : Char) (R Z : List Char) :
    escChar c ++ R ≠ '"' :: Z := by
  intro h
  by_cases h1 : c = '\\'
  · subst h1
    simp [escChar] at h
  by_cases h2 : c = '"'
  · subst h2
    simp [escChar] at h
  by_cases h3 : c = '\n'
  · subst h3
    simp [escChar] at h
  by_cases h4 : c = '\r'
  · subst h4
    simp [escChar] at h
  by_cases h5 : c = '\t'
  · subst h5
    simp [escChar] at h
  by_cases h6 : c.toNat = 8
  · rw [show c = Char.ofNat 8 by rw [← h6, Char.ofNat_toNat]] at h
    simp [escChar] at h
  by_cases h7 : c.toNat = 12
  · rw [show c = Char.ofNat 12 by rw [← h7, Char.ofNat_toNat]] at h
    simp [escChar] at h
  rw [escChar_of_plain c h1 h2 h3 h4 h5 h6 h7] at h
  by_cases h8 : 0x20 ≤ c.toNat ∧ c.toNat ≤ 0x7e
  · rw [if_pos h8, List.cons_append, List.nil_append, List.cons.injEq] at h
    exact h2 h.1
  rw [if_neg h8] at h
  by_cases h9 : c.toNat < 0x10000
  · rw [if_pos h9] at h
    simp only [List.cons_append, List.cons.injEq] at h
    exact (by decide : ('\\' : Char) ≠ '"') h.1
  · rw [if_neg h9] at h
    simp only [List.cons_append, List.append_assoc, List.cons.injEq] at h
    exact (by decide : ('\\' : Char) ≠ '"') h.1

/-- A raw quote can never sit at an escape-unit boundary: one escaped
stream is never another escaped stream followed by `'"' :: _`. -/
theorem flatMap_escChar_ne_append_quote (A : List Char) :
    ∀ (B Z : List Char), B.flatMap escChar ≠ A.flatMap escChar ++ '"' :: Z := by
  induction A with
  | nil =>
    intro B Z h
    match B with
    | [] => exact absurd h (by simp)
    | c :: B' =>
      rw [List.flatMap_cons, List.flatMap_nil, List.nil_append] at h
      exact escChar_append_ne_quote_cons c _ Z h
  | cons a A' ih =>
    intro B Z h
    match B with
    | [] =>
      rw [List.flatMap_nil, List.flatMap_cons, List.append_assoc] at h
      have := List.append_eq_nil.mp h.symm
      have h2 := List.append_eq_nil.mp this.2
      exact absurd h2.2 (by simp)
    | c :: B' =>
      rw [List.flatMap_cons, List.flatMap_cons, List.append_assoc] at h
      obtain ⟨hca, hrest⟩ := escChar_append_inj c a _ _ h
      exact ih B' Z hrest

/-- Two quoted JSON strings commuting around the `", "` separator must be
equal. -/
theorem dumpStr_word_eq (a b : String)
    (h : (dumpStr a).data ++ ',' :: ' ' :: (dumpStr b).data =
         (dumpStr b).data ++ ',' :: ' ' :: (dumpStr a).data) : a = b := by
  have hda : (dumpStr a).data = '"' :: (escapeStr a ++ ['"']) := rfl
  have hdb : (dumpStr b).data = '"' :: (escapeStr b ++ ['"']) := rfl
  rw [hda, hdb] at h
  simp only [List.cons_append, List.append_assoc, List.cons.injEq, true_and] at h
  -- h : escapeStr a ++ ('"' :: ',' :: ' ' :: '"' :: (escapeStr b ++ ['"'])) =
  --     escapeStr b ++ ('"' :: ',' :: ' ' :: '"' :: (escapeStr a ++ ['"']))
  simp only [List.nil_append] at h
  have key : ∀ (s t : String),
      (escapeStr s).length < (escapeStr t).length →
      escapeStr s ++ '"' :: ',' :: ' ' :: '"' :: (escapeStr t ++ ['"']) =
        escapeStr t ++ '"' :: ',' :: ' ' :: '"' :: (escapeStr s ++ ['"']) → False := by
    intro s t hlt heq
    have h0 : (escapeStr s).length - (escapeStr t).length = 0 := by omega
    have htake := congrArg (List.take (escapeStr s).length) heq
    rw [List.take_append_eq_append_take, List.take_append_eq_append_take,
        Nat.sub_self, List.take_zero, List.append_nil, List.take_length, h0,
        List.take_zero, List.append_nil] at htake
    have hget : (escapeStr t)[(escapeStr s).length]? = some '"' := by
      have hL := congrArg (fun l => l[(escapeStr s).length]?) heq
      simp only at hL
      rw [List.getElem?_append_right (Nat.le_refl _), Nat.sub_self] at hL
      rw [List.getElem?_append_left hlt] at hL
      simp only [List.getElem?_cons_zero] at hL
      exact hL.symm
    have hlen : (escapeStr s).length < (escapeStr t).length := hlt
    have hdrop : escapeStr t =
        escapeStr s ++ '"' :: (escapeStr t).drop ((escapeStr s).length + 1) := by
      conv_lhs => rw [← List.take_append_drop (escapeStr s).length (escapeStr t)]
      rw [← htake]
      congr 1
      rw [List.drop_eq_getElem_cons hlen]
      congr 1
      have := List.getElem?_eq_getElem hlen
      rw [this] at hget
      exact Option.some_injective _ hget
    exact flatMap_escChar_ne_append_quote s.data t.data _ hdrop
  rcases Nat.lt_trichotomy (escapeStr a).length (escapeStr b).length with hlt | heqn | hgt
  · exact absurd h (fun hh => key a b hlt hh)
  · obtain ⟨h1, -⟩ := List.append_inj h heqn
    exact escapeStr_inj a b h1
  · exact absurd h.symm (fun hh => key b a hgt hh)

theorem dumpsList_append (item kv : String) (s : Bool) (P Q : List Val) :
    dumpsList item kv s (P ++ Q) = dumpsList item kv s P ++ dumpsList item kv s Q := by
  induction P with
  | nil => rfl
  | cons v vs ih =>
    rw [List.cons_append, dumpsList, dumpsList, ih, List.cons_append]

theorem pyJoin_data_cons (sep : String) (x : String) (xs : List String) :
    (pyJoin sep (x :: xs)).data = x.data ++ xs.flatMap (fun z => sep.data ++ z.data) := by
  induction xs generalizing x with
  | nil => simp [pyJoin]
  | cons y ys ih =>
    rw [show pyJoin sep (x :: y :: ys) = x ++ sep ++ pyJoin sep (y :: ys) from rfl]
    rw [String.data_append, String.data_append, ih y, List.flatMap_cons]
    simp [List.append_assoc]

/-- Swapping two adjacent distinct string elements changes the default
JSON serialisation of a list. -/
theorem dumpsDefault_swap_ne (P S : List Val) (a b : String) (hab : a ≠ b) :
    dumpsDefault (.list (P ++ Val.str a :: Val.str b :: S)) ≠
      dumpsDefault (.list (P ++ Val.str b :: Val.str a :: S)) := by
  intro h
  apply hab
  apply dumpStr_word_eq
  have h1 : dumpsDefault (.list (P ++ Val.str a :: Val.str b :: S)) =
      "[" ++ pyJoin ", " (dumpsList ", " ": " false P ++
        dumpStr a :: dumpStr b :: dumpsList ", " ": " false S) ++ "]" := by
    rw [show dumpsDefault (.list (P ++ Val.str a :: Val.str b :: S)) =
        "[" ++ pyJoin ", " (dumpsList ", " ": " false (P ++ Val.str a :: Val.str b :: S)) ++ "]"
      from rfl]
    rw [dumpsList_append]
    rfl
  have h2 : dumpsDefault (.list (P ++ Val.str b :: Val.str a :: S)) =
      "[" ++ pyJoin ", " (dumpsList ", " ": " false P ++
        dumpStr b :: dumpStr a :: dumpsList ", " ": " false S) ++ "]" := by
    rw [show dumpsDefault (.list (P ++ Val.str b :: Val.str a :: S)) =
        "[" ++ pyJoin ", " (dumpsList ", " ": " false (P ++ Val.str b :: Val.str a :: S)) ++ "]"
      from rfl]
    rw [dumpsList_append]
    rfl
  rw [h1, h2] at h
  have hd := congrArg String.data h
  rw [String.data_append, String.data_append, String.data_append, String.data_append,
      List.append_assoc, List.append_assoc] at hd
  have hd1 := List.append_cancel_left hd
  have hd3 := (List.append_left_inj _).mp hd1
  set DP := dumpsList ", " ": " false P with hDP
  set DS := dumpsList ", " ": " false S with hDS
  match hP : DP with
  | [] =>
    rw [List.nil_append, List.nil_append] at hd3
    rw [pyJoin_data_cons, pyJoin_data_cons, List.flatMap_cons, List.flatMap_cons] at hd3
    simp only [List.nil_append] at hd3
    have hd4 : ((dumpStr a).data ++ ',' :: ' ' :: (dumpStr b).data) ++
        DS.flatMap (fun z => [',', ' '] ++ z.data) =
        ((dumpStr b).data ++ ',' :: ' ' :: (dumpStr a).data) ++
        DS.flatMap (fun z => [',', ' '] ++ z.data) := by
      simpa [List.append_assoc] using hd3
    exact (List.append_left_inj _).mp hd4
  | d₀ :: DP' =>
    rw [List.cons_append, List.cons_append, pyJoin_data_cons, pyJoin_data_cons,
        List.flatMap_append, List.flatMap_append, List.flatMap_cons, List.flatMap_cons,
        List.flatMap_cons, List.flatMap_cons] at hd3
    have hd4 := List.append_cancel_left hd3
    have hd5 := List.append_cancel_left hd4
    have hd6 : (',' :: ' ' :: ((dumpStr a).data ++ ',' :: ' ' :: (dumpStr b).data)) ++
        DS.flatMap (fun z => [',', ' '] ++ z.data) =
        (',' :: ' ' :: ((dumpStr b).data ++ ',' :: ' ' :: (dumpStr a).data)) ++
        DS.flatMap (fun z => [',', ' '] ++ z.data) := by
      simpa [List.append_assoc] using hd5
    have hd7 := (List.append_left_inj _).mp hd6
    simp only [List.cons.injEq, true_and] at hd7
    exact hd7

end Py


/-! ### Correctness of the LCS dynamic program -/

namespace AgentTest

theorem lcsDp_succ_succ (s1 s2 : List String) (i j : Nat) :
    lcsDp s1 s2 (i + 1) (j + 1) =
      match s1[i]?, s2[j]? with
      | some a, some b =>
        if a = b then lcsDp s1 s2 i j + 1
        else max (lcsDp s1 s2 i (j + 1)) (lcsDp s1 s2 (i + 1) j)
      | _, _ => max (lcsDp s1 s2 i (j + 1)) (lcsDp s1 s2 (i + 1) j) := rfl

/-- Split a sublist of `t ++ [a]` into the two classic cases. -/
theorem sublist_concat_cases {α : Type} (l t : List α) (a : α) (h : l.Sublist (t ++ [a])) :
    l.Sublist t ∨ ∃ l', l = l' ++ [a] ∧ l'.Sublist t := by
  rw [List.sublist_append_iff] at h
  obtain ⟨l₁, l₂, rfl, hl₁, hl₂⟩ := h
  rcases List.sublist_singleton.mp hl₂ with rfl | rfl
  · left
    rw [List.append_nil]
    exact hl₁
  · right
    exact ⟨l₁, rfl, hl₁⟩

/-- Any common subsequence of the two prefixes fits under `dp[i][j]`. -/
theorem lcsDp_upper (s1 s2 : List String) :
    ∀ (k i j : Nat), i + j ≤ k → ∀ l : List String,
      l.Sublist (s1.take i) → l.Sublist (s2.take j) → l.length ≤ lcsDp s1 s2 i j := by
  intro k
  induction k with
  | zero =>
    intro i j hk l h1 h2
    have hi : i = 0 := by omega
    subst hi
    simp only [List.take_zero, List.sublist_nil] at h1
    subst h1
    simp
  | succ k ih =>
    intro i j hk l h1 h2
    match i, j with
    | 0, j =>
      simp only [List.take_zero, List.sublist_nil] at h1
      subst h1
      simp
    | i + 1, 0 =>
      simp only [List.take_zero, List.sublist_nil] at h2
      subst h2
      simp
    | i + 1, j + 1 =>
      rw [lcsDp_succ_succ]
      rcases hga : s1[i]? with _ | a <;> rcases hgb : s2[j]? with _ | b
      · -- both prefixes saturated on the left index
        have ht1 : s1.take (i + 1) = s1.take i := by
          rw [List.take_succ, hga]
          simp
        rw [ht1] at h1
        calc l.length ≤ lcsDp s1 s2 i (j + 1) := ih i (j + 1) (by omega) l h1 h2
          _ ≤ max (lcsDp s1 s2 i (j + 1)) (lcsDp s1 s2 (i + 1) j) := le_max_left _ _
      · have ht1 : s1.take (i + 1) = s1.take i := by
          rw [List.take_succ, hga]
          simp
        rw [ht1] at h1
        calc l.length ≤ lcsDp s1 s2 i (j + 1) := ih i (j + 1) (by omega) l h1 h2
          _ ≤ max (lcsDp s1 s2 i (j + 1)) (lcsDp s1 s2 (i + 1) j) := le_max_left _ _
      · have ht2 : s2.take (j + 1) = s2.take j := by
          rw [List.take_succ, hgb]
          simp
        rw [ht2] at h2
        calc l.length ≤ lcsDp s1 s2 (i + 1) j := ih (i + 1) j (by omega) l h1 h2
          _ ≤ max (lcsDp s1 s2 i (j + 1)) (lcsDp s1 s2 (i + 1) j) := le_max_right _ _
      · have ht1 : s1.take (i + 1) = s1.take i ++ [a] := by
          rw [List.take_succ, hga]
          rfl
        have ht2 : s2.take (j + 1) = s2.take j ++ [b] := by
          rw [List.take_succ, hgb]
          rfl
        by_cases hab : a = b
        · simp only [if_pos hab]
          subst hab
          rw [ht1] at h1
          rw [ht2] at h2
          rcases sublist_concat_cases l _ a h1 with hA1 | ⟨l₁, rfl, hl₁⟩ <;>
            rcases sublist_concat_cases _ _ a h2 with hB1 | ⟨l₃, heq3, hl₃⟩
          · exact Nat.le_succ_of_le (ih i j (by omega) l hA1 hB1)
          · subst heq3
            have hl₃' : l₃.Sublist (s1.take i) :=
              List.Sublist.trans (List.sublist_append_left l₃ [a]) hA1
            rw [List.length_append, List.length_singleton]
            exact Nat.add_le_add_right (ih i j (by omega) l₃ hl₃' hl₃) 1
          · have hl₁' : l₁.Sublist (s2.take j) :=
              List.Sublist.trans (List.sublist_append_left l₁ [a]) hB1
            rw [List.length_append, List.length_singleton]
            exact Nat.add_le_add_right (ih i j (by omega) l₁ hl₁ hl₁') 1
          · have hl13 : l₁ = l₃ := (List.append_left_inj [a]).mp heq3
            subst hl13
            rw [List.length_append, List.length_singleton]
            exact Nat.add_le_add_right (ih i j (by omega) l₁ hl₁ hl₃) 1
        · simp only [if_neg hab]
          rw [ht1] at h1
          rcases sublist_concat_cases l _ a h1 with hA1 | ⟨l₁, rfl, hl₁⟩
          · calc l.length ≤ lcsDp s1 s2 i (j + 1) := ih i (j + 1) (by omega) l hA1 h2
              _ ≤ _ := le_max_left _ _
          · rw [ht2] at h2
            rcases sublist_concat_cases _ _ b h2 with hB1 | ⟨l₃, heq3, hl₃⟩
            · have h1' : (l₁ ++ [a]).Sublist (s1.take (i + 1)) := by
                rw [ht1]
                exact h1
              calc (l₁ ++ [a]).length ≤ lcsDp s1 s2 (i + 1) j :=
                    ih (i + 1) j (by omega) _ h1' hB1
                _ ≤ _ := le_max_right _ _
            · exfalso
              apply hab
              have ha' : (l₁ ++ [a]).getLast? = some a := List.getLast?_concat _
              have hb' : (l₃ ++ [b]).getLast? = some b := List.getLast?_concat _
              rw [heq3, hb'] at ha'
              exact (Option.some_injective _ ha').symm

theorem take_sublist_take_succ {α : Type} (s : List α) (i : Nat) :
    (s.take i).Sublist (s.take (i + 1)) := by
  have h : s.take i = (s.take (i + 1)).take i := by
    rw [List.take_take]
    congr 1
    omega
  rw [h]
  exact List.take_sublist _ _

/-- `dp[i][j]` is achieved by some common subsequence of the prefixes. -/
theorem lcsDp_exists (s1 s2 : List String) :
    ∀ (k i j : Nat), i + j ≤ k → ∃ l : List String,
      l.Sublist (s1.take i) ∧ l.Sublist (s2.take j) ∧ l.length = lcsDp s1 s2 i j := by
  intro k
  induction k with
  | zero =>
    intro i j hk
    have hi : i = 0 := by omega
    subst hi
    exact ⟨[], by simp, by simp, by simp [lcsDp]⟩
  | succ k ih =>
    intro i j hk
    match i, j with
    | 0, j => exact ⟨[], by simp, by simp, by simp [lcsDp]⟩
    | i + 1, 0 => exact ⟨[], by simp, by simp, rfl⟩
    | i + 1, j + 1 =>
      rw [lcsDp_succ_succ]
      have hmaxcase : ∀ hmax : max (lcsDp s1 s2 i (j + 1)) (lcsDp s1 s2 (i + 1) j) =
            lcsDp s1 s2 i (j + 1) ∨ max (lcsDp s1 s2 i (j + 1)) (lcsDp s1 s2 (i + 1) j) =
            lcsDp s1 s2 (i + 1) j, ∃ l : List String,
          l.Sublist (s1.take (i + 1)) ∧ l.Sublist (s2.take (j + 1)) ∧
            l.length = max (lcsDp s1 s2 i (j + 1)) (lcsDp s1 s2 (i + 1) j) := by
        intro hmax
        rcases hmax with hm | hm
        · obtain ⟨l, h1, h2, h3⟩ := ih i (j + 1) (by omega)
          exact ⟨l, List.Sublist.trans h1 (take_sublist_take_succ s1 i), h2, by omega⟩
        · obtain ⟨l, h1, h2, h3⟩ := ih (i + 1) j (by omega)
          exact ⟨l, h1, List.Sublist.trans h2 (take_sublist_take_succ s2 j), by omega⟩
      rcases hga : s1[i]? with _ | a <;> rcases hgb : s2[j]? with _ | b
      · exact hmaxcase (max_choice _ _)
      · exact hmaxcase (max_choice _ _)
      · exact hmaxcase (max_choice _ _)
      · by_cases hab : a = b
        · simp only [if_pos hab]
          subst hab
          obtain ⟨l, h1, h2, h3⟩ := ih i j (by omega)
          refine ⟨l ++ [a], ?_, ?_, by simp [h3]⟩
          · rw [List.take_succ, hga]
            exact List.Sublist.append h1 (List.Sublist.refl _)
          · rw [List.take_succ, hgb]
            exact List.Sublist.append h2 (List.Sublist.refl _)
        · simp only [if_neg hab]
          exact hmaxcase (max_choice _ _)

theorem backtrackF_zero_left (s1 s2 : List String) (f j : Nat) :
    backtrackF s1 s2 f 0 j = [] := by
  cases f <;> rfl

theorem backtrackF_zero_right (s1 s2 : List String) (f i : Nat) :
    backtrackF s1 s2 f (i + 1) 0 = [] := by
  cases f <;> rfl

/-- Fuel does not matter once it covers `i + j`. -/
theorem backtrackF_congr (s1 s2 : List String) :
    ∀ (f g i j : Nat), i + j ≤ f → i + j ≤ g →
      backtrackF s1 s2 f i j = backtrackF s1 s2 g i j := by
  intro f
  induction f with
  | zero =>
    intro g i j hf hg
    match i, j with
    | 0, j => rw [backtrackF_zero_left, backtrackF_zero_left]
    | i + 1, j => omega
  | succ f ihf =>
    intro g i j hf hg
    match i, j with
    | 0, j => rw [backtrackF_zero_left, backtrackF_zero_left]
    | i + 1, 0 => rw [backtrackF_zero_right, backtrackF_zero_right]
    | i + 1, j + 1 =>
      match g with
      | 0 => omega
      | g + 1 =>
        show backtrackF s1 s2 (f + 1) (i + 1) (j + 1) = backtrackF s1 s2 (g + 1) (i + 1) (j + 1)
        rw [backtrackF, backtrackF]
        rcases hga : s1[i]? with _ | a <;> rcases hgb : s2[j]? with _ | b <;>
          simp only [hga, hgb]
        · split_ifs with hcmp
          · exact ihf g i (j + 1) (by omega) (by omega)
          · exact ihf g (i + 1) j (by omega) (by omega)
        · split_ifs with hcmp
          · exact ihf g i (j + 1) (by omega) (by omega)
          · exact ihf g (i + 1) j (by omega) (by omega)
        · split_ifs with hcmp
          · exact ihf g i (j + 1) (by omega) (by omega)
          · exact ihf g (i + 1) j (by omega) (by omega)
        · split_ifs with hab hcmp
          · rw [ihf g i j (by omega) (by omega)]
          · exact ihf g i (j + 1) (by omega) (by omega)
          · exact ihf g (i + 1) j (by omega) (by omega)


theorem backtrack_succ_succ (s1 s2 : List String) (i j : Nat) :
    backtrack s1 s2 (i + 1) (j + 1) =
      match s1[i]?, s2[j]? with
      | some a, some b =>
        if a = b then (i, j) :: backtrack s1 s2 i j
        else if lcsDp s1 s2 i (j + 1) > lcsDp s1 s2 (i + 1) j then backtrack s1 s2 i (j + 1)
        else backtrack s1 s2 (i + 1) j
      | _, _ =>
        if lcsDp s1 s2 i (j + 1) > lcsDp s1 s2 (i + 1) j then backtrack s1 s2 i (j + 1)
        else backtrack s1 s2 (i + 1) j := by
  show backtrackF s1 s2 (i + 1 + (j + 1)) (i + 1) (j + 1) = _
  have h1 : i + 1 + (j + 1) = (i + j + 1) + 1 := by omega
  rw [h1, backtrackF]
  rcases hga : s1[i]? with _ | a <;> rcases hgb : s2[j]? with _ | b <;> simp only [hga, hgb]
  · split_ifs with hcmp
    · exact backtrackF_congr s1 s2 _ _ _ _ (by omega) (by omega)
    · exact backtrackF_congr s1 s2 _ _ _ _ (by omega) (by omega)
  · split_ifs with hcmp
    · exact backtrackF_congr s1 s2 _ _ _ _ (by omega) (by omega)
    · exact backtrackF_congr s1 s2 _ _ _ _ (by omega) (by omega)
  · split_ifs with hcmp
    · exact backtrackF_congr s1 s2 _ _ _ _ (by omega) (by omega)
    · exact backtrackF_congr s1 s2 _ _ _ _ (by omega) (by omega)
  · split_ifs with hab hcmp
    · exact congrArg (List.cons (i, j))
        (backtrackF_congr s1 s2 (i + j + 1) (i + j) i j (by omega) (by omega))
    · exact backtrackF_congr s1 s2 _ _ _ _ (by omega) (by omega)
    · exact backtrackF_congr s1 s2 _ _ _ _ (by omega) (by omega)

theorem backtrack_length (s1 s2 : List String) :
    ∀ (k i j : Nat), i + j ≤ k → (backtrack s1 s2 i j).length = lcsDp s1 s2 i j := by
  intro k
  induction k with
  | zero =>
    intro i j hk
    match i, j with
    | 0, j =>
      rw [show backtrack s1 s2 0 j = [] from backtrackF_zero_left s1 s2 _ j]
      rfl
    | i + 1, j => omega
  | succ k ih =>
    intro i j hk
    match i, j with
    | 0, j =>
      rw [show backtrack s1 s2 0 j = [] from backtrackF_zero_left s1 s2 _ j]
      rfl
    | i + 1, 0 =>
      rw [show backtrack s1 s2 (i + 1) 0 = [] from backtrackF_zero_right s1 s2 _ i]
      rfl
    | i + 1, j + 1 =>
      rw [backtrack_succ_succ, lcsDp_succ_succ]
      rcases hga : s1[i]? with _ | a <;> rcases hgb : s2[j]? with _ | b <;>
        simp only [hga, hgb]
      · split_ifs with hcmp
        · rw [ih i (j + 1) (by omega), Nat.max_eq_left (by omega)]
        · rw [ih (i + 1) j (by omega), Nat.max_eq_right (by omega)]
      · split_ifs with hcmp
        · rw [ih i (j + 1) (by omega), Nat.max_eq_left (by omega)]
        · rw [ih (i + 1) j (by omega), Nat.max_eq_right (by omega)]
      · split_ifs with hcmp
        · rw [ih i (j + 1) (by omega), Nat.max_eq_left (by omega)]
        · rw [ih (i + 1) j (by omega), Nat.max_eq_right (by omega)]
      · split_ifs with hab hcmp
        · rw [List.length_cons, ih i j (by omega)]
        · rw [ih i (j + 1) (by omega), Nat.max_eq_left (by omega)]
        · rw [ih (i + 1) j (by omega), Nat.max_eq_right (by omega)]

theorem backtrack_mem (s1 s2 : List String) :
    ∀ (k i j : Nat), i + j ≤ k → ∀ p ∈ backtrack s1 s2 i j, p.1 < i ∧ p.2 < j := by
  intro k
  induction k with
  | zero =>
    intro i j hk p hp
    match i, j with
    | 0, j =>
      rw [show backtrack s1 s2 0 j = [] from backtrackF_zero_left s1 s2 _ j] at hp
      exact absurd hp (List.not_mem_nil p)
    | i + 1, j => omega
  | succ k ih =>
    intro i j hk p hp
    match i, j with
    | 0, j =>
      rw [show backtrack s1 s2 0 j = [] from backtrackF_zero_left s1 s2 _ j] at hp
      exact absurd hp (List.not_mem_nil p)
    | i + 1, 0 =>
      rw [show backtrack s1 s2 (i + 1) 0 = [] from backtrackF_zero_right s1 s2 _ i] at hp
      exact absurd hp (List.not_mem_nil p)
    | i + 1, j + 1 =>
      rw [backtrack_succ_succ] at hp
      rcases hga : s1[i]? with _ | a <;> rcases hgb : s2[j]? with _ | b <;>
        simp only [hga, hgb] at hp
      · split_ifs at hp with hcmp
        · have := ih i (j + 1) (by omega) p hp
          omega
        · have := ih (i + 1) j (by omega) p hp
          omega
      · split_ifs at hp with hcmp
        · have := ih i (j + 1) (by omega) p hp
          omega
        · have := ih (i + 1) j (by omega) p hp
          omega
      · split_ifs at hp with hcmp
        · have := ih i (j + 1) (by omega) p hp
          omega
        · have := ih (i + 1) j (by omega) p hp
          omega
      · split_ifs at hp with hab hcmp
        · rcases List.mem_cons.mp hp with rfl | hp'
          · constructor <;> omega
          · have := ih i j (by omega) p hp'
            omega
        · have := ih i (j + 1) (by omega) p hp
          omega
        · have := ih (i + 1) j (by omega) p hp
          omega

theorem backtrack_pairwise (s1 s2 : List String) :
    ∀ (k i j : Nat), i + j ≤ k →
      List.Pairwise (fun p q => q.1 < p.1 ∧ q.2 < p.2) (backtrack s1 s2 i j) := by
  intro k
  induction k with
  | zero =>
    intro i j hk
    match i, j with
    | 0, j =>
      rw [show backtrack s1 s2 0 j = [] from backtrackF_zero_left s1 s2 _ j]
      exact List.Pairwise.nil
    | i + 1, j => omega
  | succ k ih =>
    intro i j hk
    match i, j with
    | 0, j =>
      rw [show backtrack s1 s2 0 j = [] from backtrackF_zero_left s1 s2 _ j]
      exact List.Pairwise.nil
    | i + 1, 0 =>
      rw [show backtrack s1 s2 (i + 1) 0 = [] from backtrackF_zero_right s1 s2 _ i]
      exact List.Pairwise.nil
    | i + 1, j + 1 =>
      rw [backtrack_succ_succ]
      rcases hga : s1[i]? with _ | a <;> rcases hgb : s2[j]? with _ | b <;>
        simp only [hga, hgb]
      · split_ifs with hcmp
        · exact ih i (j + 1) (by omega)
        · exact ih (i + 1) j (by omega)
      · split_ifs with hcmp
        · exact ih i (j + 1) (by omega)
        · exact ih (i + 1) j (by omega)
      · split_ifs with hcmp
        · exact ih i (j + 1) (by omega)
        · exact ih (i + 1) j (by omega)
      · split_ifs with hab hcmp
        · refine List.Pairwise.cons ?_ (ih i j (by omega))
          intro q hq
          exact backtrack_mem s1 s2 (i + j) i j (by omega) q hq
        · exact ih i (j + 1) (by omega)
        · exact ih (i + 1) j (by omega)

theorem compute_lcs_eq (s1 s2 : List String) :
    compute_lcs s1 s2 = (backtrack s1 s2 s1.length s2.length).reverse := rfl

theorem compute_lcs_length (s1 s2 : List String) :
    (compute_lcs s1 s2).length = lcsDp s1 s2 s1.length s2.length := by
  rw [compute_lcs_eq, List.length_reverse]
  exact backtrack_length s1 s2 _ _ _ (Nat.le_refl _)

theorem compute_lcs_mem (s1 s2 : List String) (p : Nat × Nat) (hp : p ∈ compute_lcs s1 s2) :
    p.1 < s1.length ∧ p.2 < s2.length := by
  rw [compute_lcs_eq, List.mem_reverse] at hp
  exact backtrack_mem s1 s2 _ _ _ (Nat.le_refl _) p hp

theorem compute_lcs_pairwise (s1 s2 : List String) :
    List.Pairwise (fun p q => p.1 < q.1 ∧ p.2 < q.2) (compute_lcs s1 s2) := by
  rw [compute_lcs_eq, List.pairwise_reverse]
  exact backtrack_pairwise s1 s2 _ _ _ (Nat.le_refl _)

/-! ### The lockstep walk of `align_by_lcs` -/

/-- Strictly increasing match list: membership determines `b2r`. -/
theorem b2r_of_mem (ms : List (Nat × Nat))
    (hpw : List.Pairwise (fun p q => p.1 < q.1 ∧ p.2 < q.2) ms)
    (p : Nat × Nat) (hp : p ∈ ms) : b2r ms p.1 = some p.2 := by
  induction ms with
  | nil => cases hp
  | cons q ms ih =>
    obtain ⟨hq, hpw'⟩ := List.pairwise_cons.mp hpw
    rcases List.mem_cons.mp hp with rfl | hp'
    · rw [b2r, List.find?_cons_of_pos _ (by simp)]
      rfl
    · have hlt := hq p hp'
      rw [b2r, List.find?_cons_of_neg _ (by simp; omega)]
      exact ih hpw' hp'

theorem r2b_of_mem (ms : List (Nat × Nat))
    (hpw : List.Pairwise (fun p q => p.1 < q.1 ∧ p.2 < q.2) ms)
    (p : Nat × Nat) (hp : p ∈ ms) : r2b ms p.2 = some p.1 := by
  induction ms with
  | nil => cases hp
  | cons q ms ih =>
    obtain ⟨hq, hpw'⟩ := List.pairwise_cons.mp hpw
    rcases List.mem_cons.mp hp with rfl | hp'
    · rw [r2b, List.find?_cons_of_pos _ (by simp)]
      rfl
    · have hlt := hq p hp'
      rw [r2b, List.find?_cons_of_neg _ (by simp; omega)]
      exact ih hpw' hp'

theorem mem_of_b2r (ms : List (Nat × Nat)) (k r : Nat) (h : b2r ms k = some r) :
    (k, r) ∈ ms := by
  rw [b2r] at h
  rcases hf : ms.find? (fun p => p.1 = k) with _ | q
  · rw [hf] at h
    cases h
  · rw [hf] at h
    have hq1 : q.1 = k := by
      have := List.find?_some hf
      simpa using this
    have hq2 : q.2 = r := by
      simpa using h
    have hmem := List.mem_of_find?_eq_some hf
    have : q = (k, r) := Prod.ext hq1 hq2
    rw [← this]
    exact hmem

theorem mem_of_r2b (ms : List (Nat × Nat)) (k b : Nat) (h : r2b ms k = some b) :
    (b, k) ∈ ms := by
  rw [r2b] at h
  rcases hf : ms.find? (fun p => p.2 = k) with _ | q
  · rw [hf] at h
    cases h
  · rw [hf] at h
    have hq2 : q.2 = k := by
      have := List.find?_some hf
      simpa using this
    have hq1 : q.1 = b := by
      simpa using h
    have hmem := List.mem_of_find?_eq_some hf
    have : q = (b, k) := Prod.ext hq1 hq2
    rw [← this]
    exact hmem

/-- Any two distinct members of a pairwise list are related one way. -/
theorem pairwise_total {α : Type} (R : α → α → Prop) (l : List α)
    (hpw : List.Pairwise R l) (p q : α) (hp : p ∈ l) (hq : q ∈ l) (hne : p ≠ q) :
    R p q ∨ R q p := by
  induction l with
  | nil => cases hp
  | cons x l ih =>
    obtain ⟨hx, hpw'⟩ := List.pairwise_cons.mp hpw
    rcases List.mem_cons.mp hp with rfl | hp' <;> rcases List.mem_cons.mp hq with rfl | hq'
    · exact absurd rfl hne
    · exact Or.inl (hx q hq')
    · exact Or.inr (hx p hp')
    · exact ih hpw' hp' hq'

theorem filter_le_split (ms : List (Nat × Nat)) (bi : Nat) :
    (ms.filter (fun p => bi ≤ p.1)).length =
      (ms.filter (fun p => p.1 = bi)).length +
      (ms.filter (fun p => bi + 1 ≤ p.1)).length := by
  induction ms with
  | nil => rfl
  | cons q ms ih =>
    by_cases h1 : bi ≤ q.1 <;> by_cases h2 : q.1 = bi <;> by_cases h3 : bi + 1 ≤ q.1 <;>
      simp [List.filter_cons, h1, h2, h3, ih] <;> omega

/-- With a member at first coordinate `bi`, the `= bi` filter is a singleton. -/
theorem filter_first_eq_length_one (ms : List (Nat × Nat))
    (hpw : List.Pairwise (fun p q => p.1 < q.1 ∧ p.2 < q.2) ms)
    (bi ri : Nat) (hmem : (bi, ri) ∈ ms) :
    (ms.filter (fun p => p.1 = bi)).length = 1 := by
  have hmemf : (bi, ri) ∈ ms.filter (fun p => p.1 = bi) := by
    rw [List.mem_filter]
    exact ⟨hmem, by simp⟩
  have hpwf := List.Pairwise.sublist
    (List.filter_sublist (p := fun p => decide (p.1 = bi)) ms) hpw
  match hf : ms.filter (fun p => p.1 = bi) with
  | [] =>
    rw [hf] at hmemf
    cases hmemf
  | [q] =>
    rw [hf]
    rfl
  | q₁ :: q₂ :: t =>
    exfalso
    rw [hf] at hpwf
    have h1 : q₁.1 = bi := by
      have : q₁ ∈ ms.filter (fun p => p.1 = bi) := by
        rw [hf]
        exact List.mem_cons_self _ _
      simpa using (List.mem_filter.mp this).2
    have h2 : q₂.1 = bi := by
      have : q₂ ∈ ms.filter (fun p => p.1 = bi) := by
        rw [hf]
        exact List.mem_cons_of_mem _ (List.mem_cons_self _ _)
      simpa using (List.mem_filter.mp this).2
    have := (List.pairwise_cons.mp hpwf).1 q₂ (List.mem_cons_self _ _)
    omega

theorem filter_first_eq_nil (ms : List (Nat × Nat)) (bi : Nat)
    (hno : ∀ r, (bi, r) ∉ ms) :
    (ms.filter (fun p => p.1 = bi)).length = 0 := by
  rw [List.length_eq_zero, List.filter_eq_nil_iff]
  intro p hp hpred
  have h1 : p.1 = bi := by simpa using hpred
  apply hno p.2
  have : p = (bi, p.2) := Prod.ext h1 rfl
  rw [← this]
  exact hp

theorem unmatchedBefore_eq_false_iff (o : Option Nat) (k : Nat) :
    unmatchedBefore o k = false ↔ ∃ r, o = some r ∧ k ≤ r := by
  cases o with
  | none => simp [unmatchedBefore]
  | some r =>
    simp only [unmatchedBefore, decide_eq_false_iff_not, Option.some.injEq]
    constructor
    · intro h
      exact ⟨r, rfl, by omega⟩
    · rintro ⟨r', rfl, h⟩
      omega

/-- The fall-through branch of the walk is unreachable: whenever the loop
guard holds but none of the three emission guards fires, the invariants
are contradictory. -/
theorem walk_else_unreachable (bd rd : List LLMCallDetail) (ms : List (Nat × Nat))
    (hpw : List.Pairwise (fun p q => p.1 < q.1 ∧ p.2 < q.2) ms)
    (hrange : ∀ p ∈ ms, p.1 < bd.length ∧ p.2 < rd.length)
    (bi ri : Nat)
    (hloop : bi < bd.length ∨ ri < rd.length)
    (hm : (bi, ri) ∉ ms)
    (hrem : ¬ (bi < bd.length ∧ unmatchedBefore (b2r ms bi) ri = true))
    (hadd : ¬ (ri < rd.length ∧ unmatchedBefore (r2b ms ri) bi = true)) : False := by
  by_cases hbm : bi < bd.length
  · have hub : unmatchedBefore (b2r ms bi) ri = false := by
      rcases Bool.eq_false_or_eq_true (unmatchedBefore (b2r ms bi) ri) with h | h
      · exact absurd ⟨hbm, h⟩ hrem
      · exact h
    obtain ⟨r, hr, hri⟩ := (unmatchedBefore_eq_false_iff _ _).mp hub
    have hmem1 : (bi, r) ∈ ms := mem_of_b2r ms bi r hr
    have hrne : r ≠ ri := by
      intro h
      rw [h] at hmem1
      exact hm hmem1
    have hrgt : ri < r := by omega
    have hrn : ri < rd.length := by
      have := hrange _ hmem1
      simp only at this
      omega
    have hub2 : unmatchedBefore (r2b ms ri) bi = false := by
      rcases Bool.eq_false_or_eq_true (unmatchedBefore (r2b ms ri) bi) with h | h
      · exact absurd ⟨hrn, h⟩ hadd
      · exact h
    obtain ⟨b, hb, hbi⟩ := (unmatchedBefore_eq_false_iff _ _).mp hub2
    have hmem2 : (b, ri) ∈ ms := mem_of_r2b ms ri b hb
    have hbne : b ≠ bi := by
      intro h
      rw [h] at hmem2
      exact hm hmem2
    have hbgt : bi < b := by omega
    have hne : (bi, r) ≠ (b, ri) := by
      intro h
      have := congrArg Prod.fst h
      simp only at this
      omega
    rcases pairwise_total _ ms hpw (bi, r) (b, ri) hmem1 hmem2 hne with ⟨-, h2⟩ | ⟨h1, -⟩
    · simp only at h2
      omega
    · simp only at h1
      omega
  · have hrn : ri < rd.length := by
      rcases hloop with h | h
      · exact absurd h hbm
      · exact h
    have hub2 : unmatchedBefore (r2b ms ri) bi = false := by
      rcases Bool.eq_false_or_eq_true (unmatchedBefore (r2b ms ri) bi) with h | h
      · exact absurd ⟨hrn, h⟩ hadd
      · exact h
    obtain ⟨b, hb, hbi⟩ := (unmatchedBefore_eq_false_iff _ _).mp hub2
    have hmem2 : (b, ri) ∈ ms := mem_of_r2b ms ri b hb
    have := hrange _ hmem2
    simp only at this
    omega

theorem unmatchedBefore_eq_true_some (o : Option Nat) (k r : Nat)
    (h : unmatchedBefore o k = true) (hr : o = some r) : r < k := by
  subst hr
  simpa [unmatchedBefore] using h

theorem alignWalkF_succ (bd rd : List LLMCallDetail) (ms : List (Nat × Nat))
    (f bi ri : Nat) :
    alignWalkF bd rd ms (f + 1) bi ri =
    if bi < bd.length ∨ ri < rd.length then
      if (bi, ri) ∈ ms then
        { baseline_detail := bd.get? bi
          replay_detail := rd.get? ri
          status := AlignStatus.MATCHED
          baseline_index := some bi
          replay_index := some ri } :: alignWalkF bd rd ms f (bi + 1) (ri + 1)
      else if bi < bd.length ∧ unmatchedBefore (b2r ms bi) ri then
        { baseline_detail := bd.get? bi
          replay_detail := Option.none
          status := AlignStatus.REMOVED
          baseline_index := some bi
          replay_index := Option.none } :: alignWalkF bd rd ms f (bi + 1) ri
      else if ri < rd.length ∧ unmatchedBefore (r2b ms ri) bi then
        { baseline_detail := Option.none
          replay_detail := rd.get? ri
          status := AlignStatus.ADDED
          baseline_index := Option.none
          replay_index := some ri } :: alignWalkF bd rd ms f bi (ri + 1)
      else
        if bi < bd.length ∧ posLe (b2r ms bi) (r2b ms ri) then
          alignWalkF bd rd ms f (bi + 1) ri
        else if ri < rd.length then
          alignWalkF bd rd ms f bi (ri + 1)
        else
          alignWalkF bd rd ms f (bi + 1) ri
    else [] := rfl

/-- Master specification of the lockstep walk: assuming the match list is
strictly increasing in both coordinates and in range, the walk consumes every
baseline index from `bi` up and every replay index from `ri` up exactly once,
emits one MATCHED pair per remaining match, and every emitted pair has one of
the three well-formed shapes. -/
theorem alignWalkF_spec (bd rd : List LLMCallDetail) (ms : List (Nat × Nat))
    (hpw : List.Pairwise (fun p q => p.1 < q.1 ∧ p.2 < q.2) ms)
    (hrange : ∀ p ∈ ms, p.1 < bd.length ∧ p.2 < rd.length) :
    ∀ fuel bi ri,
      (bd.length - bi) + (rd.length - ri) ≤ fuel →
      (∀ p ∈ ms, (bi ≤ p.1 ↔ ri ≤ p.2)) →
      (alignWalkF bd rd ms fuel bi ri).filterMap (fun pr => pr.baseline_index)
          = List.range' bi (bd.length - bi) ∧
      (alignWalkF bd rd ms fuel bi ri).filterMap (fun pr => pr.replay_index)
          = List.range' ri (rd.length - ri) ∧
      ((alignWalkF bd rd ms fuel bi ri).filter
          (fun pr => pr.status = AlignStatus.MATCHED)).length
          = (ms.filter (fun p => bi ≤ p.1)).length ∧
      (alignWalkF bd rd ms fuel bi ri).length
          + (ms.filter (fun p => bi ≤ p.1)).length
          = (bd.length - bi) + (rd.length - ri) ∧
      ∀ pr ∈ alignWalkF bd rd ms fuel bi ri,
        (pr.status = AlignStatus.MATCHED ∧ (∃ b, pr.baseline_index = some b)
            ∧ ∃ r, pr.replay_index = some r) ∨
        (pr.status = AlignStatus.REMOVED ∧ (∃ b, pr.baseline_index = some b)
            ∧ pr.replay_index = Option.none) ∨
        (pr.status = AlignStatus.ADDED ∧ pr.baseline_index = Option.none
            ∧ ∃ r, pr.replay_index = some r) := by
  intro fuel
  induction fuel with
  | zero =>
    intro bi ri hfuel hinv
    have hbm : bd.length ≤ bi := by omega
    have hrn : rd.length ≤ ri := by omega
    have hm0 : bd.length - bi = 0 := by omega
    have hn0 : rd.length - ri = 0 := by omega
    have hflt : ms.filter (fun p => bi ≤ p.1) = [] := by
      rw [List.filter_eq_nil_iff]
      intro p hp
      have := hrange p hp
      simp only [decide_eq_true_eq]
      omega
    have hstep : alignWalkF bd rd ms 0 bi ri = [] := rfl
    refine ⟨?_, ?_, ?_, ?_, ?_⟩
    · rw [hstep, hm0]
      rfl
    · rw [hstep, hn0]
      rfl
    · rw [hstep, hflt]
      rfl
    · rw [hstep, hflt]
      simp only [List.length_nil]
      omega
    · intro pr hpr
      rw [hstep] at hpr
      exact absurd hpr (List.not_mem_nil pr)
  | succ f ih =>
    intro bi ri hfuel hinv
    by_cases hloop : bi < bd.length ∨ ri < rd.length
    · by_cases hmatch : (bi, ri) ∈ ms
      · -- MATCHED step
        have hbm : bi < bd.length := (hrange _ hmatch).1
        have hrn : ri < rd.length := (hrange _ hmatch).2
        have hstep := alignWalkF_succ bd rd ms f bi ri
        rw [if_pos hloop, if_pos hmatch] at hstep
        have hinv' : ∀ p ∈ ms, (bi + 1 ≤ p.1 ↔ ri + 1 ≤ p.2) := by
          intro p hp
          by_cases hpe : p = (bi, ri)
          · subst hpe
            show bi + 1 ≤ bi ↔ ri + 1 ≤ ri
            omega
          · rcases pairwise_total _ ms hpw p (bi, ri) hp hmatch hpe with
              ⟨h1, h2⟩ | ⟨h1, h2⟩
            · have h1' : p.1 < bi := h1
              have h2' : p.2 < ri := h2
              constructor <;> intro h <;> omega
            · have h1' : bi < p.1 := h1
              have h2' : ri < p.2 := h2
              constructor <;> intro h <;> omega
        obtain ⟨ih1, ih2, ih3, ih4, ih5⟩ :=
          ih (bi + 1) (ri + 1) (by omega) hinv'
        have e1 : bd.length - bi = (bd.length - (bi + 1)) + 1 := by omega
        have e2 : rd.length - ri = (rd.length - (ri + 1)) + 1 := by omega
        have hsplit := filter_le_split ms bi
        have hone := filter_first_eq_length_one ms hpw bi ri hmatch
        rw [hstep]
        refine ⟨?_, ?_, ?_, ?_, ?_⟩
        · rw [e1, List.range'_succ, ← ih1]
          rfl
        · rw [e2, List.range'_succ, ← ih2]
          rfl
        · rw [List.filter_cons, if_pos]
          · rw [List.length_cons, ih3, hsplit, hone]
            omega
          · rfl
        · rw [List.length_cons, hsplit, hone]
          omega
        · intro pr hpr
          rcases List.mem_cons.mp hpr with hpr | hpr
          · subst hpr
            exact Or.inl ⟨rfl, ⟨bi, rfl⟩, ⟨ri, rfl⟩⟩
          · exact ih5 pr hpr
      · by_cases hrem : bi < bd.length ∧ unmatchedBefore (b2r ms bi) ri = true
        · -- REMOVED step
          have hnone : ∀ r, (bi, r) ∉ ms := by
            intro r hr
            have hb := b2r_of_mem ms hpw (bi, r) hr
            have hlt : r < ri := unmatchedBefore_eq_true_some _ _ _ hrem.2 hb
            have hge : ri ≤ r := (hinv (bi, r) hr).mp (le_refl bi)
            omega
          have hinv' : ∀ p ∈ ms, (bi + 1 ≤ p.1 ↔ ri ≤ p.2) := by
            intro p hp
            have hne : p.1 ≠ bi := by
              intro he
              apply hnone p.2
              rw [← he, Prod.mk.eta]
              exact hp
            obtain ⟨hmp, hmpr⟩ := hinv p hp
            constructor
            · intro h
              exact hmp (by omega)
            · intro h
              have := hmpr h
              omega
          obtain ⟨ih1, ih2, ih3, ih4, ih5⟩ :=
            ih (bi + 1) ri (by omega) hinv'
          have e1 : bd.length - bi = (bd.length - (bi + 1)) + 1 := by
            have := hrem.1
            omega
          have hsplit := filter_le_split ms bi
          have hzero := filter_first_eq_nil ms bi hnone
          have hstep := alignWalkF_succ bd rd ms f bi ri
          rw [if_pos hloop, if_neg hmatch, if_pos hrem] at hstep
          rw [hstep]
          refine ⟨?_, ?_, ?_, ?_, ?_⟩
          · rw [e1, List.range'_succ, ← ih1]
            rfl
          · rw [← ih2]
            rfl
          · rw [List.filter_cons, if_neg]
            · rw [ih3, hsplit, hzero]
              omega
            · simp
          · rw [List.length_cons, hsplit, hzero]
            omega
          · intro pr hpr
            rcases List.mem_cons.mp hpr with hpr | hpr
            · subst hpr
              exact Or.inr (Or.inl ⟨rfl, ⟨bi, rfl⟩, rfl⟩)
            · exact ih5 pr hpr
        · by_cases hadd : ri < rd.length ∧ unmatchedBefore (r2b ms ri) bi = true
          · -- ADDED step
            have hnone : ∀ b, (b, ri) ∉ ms := by
              intro b hb
              have hr := r2b_of_mem ms hpw (b, ri) hb
              have hlt : b < bi := unmatchedBefore_eq_true_some _ _ _ hadd.2 hr
              have hge : bi ≤ b := (hinv (b, ri) hb).mpr (le_refl ri)
              omega
            have hinv' : ∀ p ∈ ms, (bi ≤ p.1 ↔ ri + 1 ≤ p.2) := by
              intro p hp
              have hne : p.2 ≠ ri := by
                intro he
                apply hnone p.1
                rw [← he, Prod.mk.eta]
                exact hp
              obtain ⟨hmp, hmpr⟩ := hinv p hp
              constructor
              · intro h
                have := hmp h
                omega
              · intro h
                exact hmpr (by omega)
            obtain ⟨ih1, ih2, ih3, ih4, ih5⟩ :=
              ih bi (ri + 1) (by omega) hinv'
            have e2 : rd.length - ri = (rd.length - (ri + 1)) + 1 := by
              have := hadd.1
              omega
            have hstep := alignWalkF_succ bd rd ms f bi ri
            rw [if_pos hloop, if_neg hmatch, if_neg hrem, if_pos hadd] at hstep
            rw [hstep]
            refine ⟨?_, ?_, ?_, ?_, ?_⟩
            · rw [← ih1]
              rfl
            · rw [e2, List.range'_succ, ← ih2]
              rfl
            · rw [List.filter_cons, if_neg]
              · exact ih3
              · simp
            · rw [List.length_cons]
              omega
            · intro pr hpr
              rcases List.mem_cons.mp hpr with hpr | hpr
              · subst hpr
                exact Or.inr (Or.inr ⟨rfl, rfl, ⟨ri, rfl⟩⟩)
              · exact ih5 pr hpr
          · exact (walk_else_unreachable bd rd ms hpw hrange bi ri hloop
              hmatch hrem hadd).elim
    · have hbm : bd.length ≤ bi := by omega
      have hrn : rd.length ≤ ri := by omega
      have hm0 : bd.length - bi = 0 := by omega
      have hn0 : rd.length - ri = 0 := by omega
      have hflt : ms.filter (fun p => bi ≤ p.1) = [] := by
        rw [List.filter_eq_nil_iff]
        intro p hp
        have := hrange p hp
        simp only [decide_eq_true_eq]
        omega
      have hstep := alignWalkF_succ bd rd ms f bi ri
      rw [if_neg hloop] at hstep
      refine ⟨?_, ?_, ?_, ?_, ?_⟩
      · rw [hstep, hm0]
        rfl
      · rw [hstep, hn0]
        rfl
      · rw [hstep, hflt]
        rfl
      · rw [hstep, hflt]
        simp only [List.length_nil]
        omega
      · intro pr hpr
        rw [hstep] at hpr
        exact absurd hpr (List.not_mem_nil pr)

/-- Specification of `align_by_lcs` itself, by instantiating the walk lemma
at the LCS match list. -/
theorem align_by_lcs_spec (bd rd : List LLMCallDetail) :
    (align_by_lcs bd rd).filterMap (fun pr => pr.baseline_index)
        = List.range bd.length ∧
    (align_by_lcs bd rd).filterMap (fun pr => pr.replay_index)
        = List.range rd.length ∧
    ((align_by_lcs bd rd).filter
        (fun pr => pr.status = AlignStatus.MATCHED)).length
        = (compute_lcs (bd.map (fun d => d.fingerprint))
            (rd.map (fun d => d.fingerprint))).length ∧
    (align_by_lcs bd rd).length
        + (compute_lcs (bd.map (fun d => d.fingerprint))
            (rd.map (fun d => d.fingerprint))).length
        = bd.length + rd.length ∧
    ∀ pr ∈ align_by_lcs bd rd,
      (pr.status = AlignStatus.MATCHED ∧ (∃ b, pr.baseline_index = some b)
          ∧ ∃ r, pr.replay_index = some r) ∨
      (pr.status = AlignStatus.REMOVED ∧ (∃ b, pr.baseline_index = some b)
          ∧ pr.replay_index = Option.none) ∨
      (pr.status = AlignStatus.ADDED ∧ pr.baseline_index = Option.none
          ∧ ∃ r, pr.replay_index = some r) := by
  have hpw := compute_lcs_pairwise (bd.map (fun d => d.fingerprint))
    (rd.map (fun d => d.fingerprint))
  have hrange : ∀ p ∈ compute_lcs (bd.map (fun d => d.fingerprint))
      (rd.map (fun d => d.fingerprint)), p.1 < bd.length ∧ p.2 < rd.length := by
    intro p hp
    have := compute_lcs_mem _ _ p hp
    rwa [List.length_map, List.length_map] at this
  obtain ⟨h1, h2, h3, h4, h5⟩ :=
    alignWalkF_spec bd rd _ hpw hrange (bd.length + rd.length) 0 0
      (by omega) (fun p _ => by omega)
  have heq : align_by_lcs bd rd
      = alignWalkF bd rd (compute_lcs (bd.map (fun d => d.fingerprint))
          (rd.map (fun d => d.fingerprint))) (bd.length + rd.length) 0 0 := rfl
  have hall : (compute_lcs (bd.map (fun d => d.fingerprint))
      (rd.map (fun d => d.fingerprint))).filter (fun p => 0 ≤ p.1)
      = compute_lcs (bd.map (fun d => d.fingerprint))
          (rd.map (fun d => d.fingerprint)) :=
    List.filter_eq_self.mpr (fun p _ => by simp)
  simp only [Nat.sub_zero] at h1 h2 h3 h4
  rw [hall] at h3 h4
  rw [heq, List.range_eq_range', List.range_eq_range']
  exact ⟨h1, h2, h3, h4, h5⟩

/-- The DP value at the full lengths is the greatest common-subsequence
length. -/
theorem lcs_isGreatest (s1 s2 : List String) :
    IsGreatest (fun k => ∃ l : List String,
        l.Sublist s1 ∧ l.Sublist s2 ∧ l.length = k)
      (lcsDp s1 s2 s1.length s2.length) := by
  constructor
  · obtain ⟨l, hl1, hl2, hlen⟩ :=
      lcsDp_exists s1 s2 (s1.length + s2.length) s1.length s2.length
        (Nat.le_refl _)
    rw [List.take_length] at hl1
    rw [List.take_length] at hl2
    exact ⟨l, hl1, hl2, hlen⟩
  · rintro k ⟨l, hl1, hl2, hlen⟩
    have := lcsDp_upper s1 s2 (s1.length + s2.length) s1.length s2.length
      (Nat.le_refl _) l (by rwa [List.take_length]) (by rwa [List.take_length])
    omega

/-- Occurrence counts through `filterMap` of the baseline index. -/
theorem filter_baseline_count (b : Nat) :
    ∀ l : List AlignedPair,
      (l.filter (fun pr => pr.baseline_index = some b)).length
        = (l.filterMap (fun pr => pr.baseline_index)).count b := by
  intro l
  induction l with
  | nil => rfl
  | cons a l ih =>
    rw [List.filter_cons, List.filterMap_cons]
    cases hf : a.baseline_index with
    | none => simp [hf, ih]
    | some x =>
      by_cases hx : x = b
      · subst hx
        simp [hf, List.count_cons, ih]
      · simp [hf, hx, List.count_cons, ih]

/-- Occurrence counts through `filterMap` of the replay index. -/
theorem filter_replay_count (r : Nat) :
    ∀ l : List AlignedPair,
      (l.filter (fun pr => pr.replay_index = some r)).length
        = (l.filterMap (fun pr => pr.replay_index)).count r := by
  intro l
  induction l with
  | nil => rfl
  | cons a l ih =>
    rw [List.filter_cons, List.filterMap_cons]
    cases hf : a.replay_index with
    | none => simp [hf, ih]
    | some x =>
      by_cases hx : x = r
      · subst hx
        simp [hf, List.count_cons, ih]
      · simp [hf, hx, List.count_cons, ih]

theorem count_range (b m : Nat) :
    (List.range m).count b = if b < m then 1 else 0 := by
  by_cases hb : b < m
  · rw [if_pos hb]
    exact List.count_eq_one_of_mem (List.nodup_range m) (List.mem_range.mpr hb)
  · rw [if_neg hb]
    exact List.count_eq_zero_of_not_mem (fun h => hb (List.mem_range.mp h))

/-- C4: for every pair of detail lists, the number of aligned pairs with
status `MATCHED` produced by `align_by_lcs` is the greatest length of a
common subsequence of the baseline and replay fingerprint sequences. -/
theorem claim_C4 (baseline_details replay_details : List LLMCallDetail) :
    IsGreatest (fun k => ∃ l : List String,
        l.Sublist (baseline_details.map (fun d => d.fingerprint)) ∧
        l.Sublist (replay_details.map (fun d => d.fingerprint)) ∧
        l.length = k)
      ((align_by_lcs baseline_details replay_details).filter
        (fun pr => pr.status = AlignStatus.MATCHED)).length := by
  obtain ⟨-, -, h3, -, -⟩ := align_by_lcs_spec baseline_details replay_details
  rw [h3, compute_lcs_length]
  exact lcs_isGreatest _ _

/-- C10: `align_by_lcs` returns a list in which every baseline index below
`m` occurs in exactly one pair (with status MATCHED or REMOVED), every
replay index below `n` occurs in exactly one pair (with status MATCHED or
ADDED), and the total number of pairs is `m + n` minus the longest common
subsequence length of the fingerprint sequences. -/
theorem claim_C10 (baseline_details replay_details : List LLMCallDetail) :
    (∀ b, ((align_by_lcs baseline_details replay_details).filter
        (fun pr => pr.baseline_index = some b)).length
        = if b < baseline_details.length then 1 else 0) ∧
    (∀ r, ((align_by_lcs baseline_details replay_details).filter
        (fun pr => pr.replay_index = some r)).length
        = if r < replay_details.length then 1 else 0) ∧
    (∀ pr ∈ align_by_lcs baseline_details replay_details,
      ((∃ b, pr.baseline_index = some b) →
        pr.status = AlignStatus.MATCHED ∨ pr.status = AlignStatus.REMOVED) ∧
      ((∃ r, pr.replay_index = some r) →
        pr.status = AlignStatus.MATCHED ∨ pr.status = AlignStatus.ADDED)) ∧
    ∃ L, IsGreatest (fun k => ∃ l : List String,
        l.Sublist (baseline_details.map (fun d => d.fingerprint)) ∧
        l.Sublist (replay_details.map (fun d => d.fingerprint)) ∧
        l.length = k) L ∧
      (align_by_lcs baseline_details replay_details).length + L
        = baseline_details.length + replay_details.length := by
  obtain ⟨h1, h2, h3, h4, h5⟩ :=
    align_by_lcs_spec baseline_details replay_details
  refine ⟨?_, ?_, ?_, ?_⟩
  · intro b
    rw [filter_baseline_count, h1, count_range]
  · intro r
    rw [filter_replay_count, h2, count_range]
  · intro pr hpr
    rcases h5 pr hpr with ⟨hs, hb, hr⟩ | ⟨hs, hb, hr⟩ | ⟨hs, hb, hr⟩
    · exact ⟨fun _ => Or.inl hs, fun _ => Or.inl hs⟩
    · exact ⟨fun _ => Or.inr hs, fun h => absurd h (by simp [hr])⟩
    · exact ⟨fun h => absurd h (by simp [hb]), fun _ => Or.inr hs⟩
  · refine ⟨(compute_lcs (baseline_details.map (fun d => d.fingerprint))
      (replay_details.map (fun d => d.fingerprint))).length, ?_, h4⟩
    rw [compute_lcs_length]
    exact lcs_isGreatest _ _

/-- C2: the specification says comparing an empty baseline against an empty
replay returns normally with `overall_pass = true` and all counts `0`; the
code instead evaluates `baseline_details[0].recording_id` unconditionally
when building `comparison_id`, so the call raises `IndexError`. -/
theorem claim_C2 (cmp : Comparison) :
    compare_recordings cmp [] [] = .error Py.Err.indexError := rfl

/-- `_compare_pair` never returns a CASCADE status. -/
theorem compare_pair_no_cascade (cmp : Comparison) (pair : AlignedPair)
    (si : Nat) (sc : StepComparison)
    (h : compare_pair cmp pair si = .ok sc) :
    sc.status ≠ StepStatus.CASCADE := by
  unfold compare_pair at h
  by_cases h1 : pair.status = AlignStatus.REMOVED
  · rw [if_pos h1] at h
    injection h with h'
    subst h'
    simp
  rw [if_neg h1] at h
  by_cases h2 : pair.status = AlignStatus.ADDED
  · rw [if_pos h2] at h
    injection h with h'
    subst h'
    simp
  rw [if_neg h2] at h
  rcases hb : pair.baseline_detail with _ | b <;> rw [hb] at h <;>
    rcases hr : pair.replay_detail with _ | r <;> rw [hr] at h <;>
    dsimp only [] at h
  · cases h
  · cases h
  · cases h
  · by_cases h3 : exact_match b r = 1
    · rw [if_pos h3] at h
      injection h with h'
      subst h'
      simp
    rw [if_neg h3] at h
    by_cases h4 : cmp.threshold ≤ min (structural_similarity cmp b r)
        (semantic_similarity cmp b.response_data r.response_data)
    · rw [if_pos h4] at h
      injection h with h'
      subst h'
      simp
    · rw [if_neg h4] at h
      injection h with h'
      subst h'
      simp

/-- Every comparison produced by the scoring loop has a non-CASCADE
status. -/
theorem compare_pairs_no_cascade (cmp : Comparison) :
    ∀ (l : List AlignedPair) (i : Nat) (scs : List StepComparison),
      compare_pairs cmp l i = .ok scs →
      ∀ sc ∈ scs, sc.status ≠ StepStatus.CASCADE := by
  intro l
  induction l with
  | nil =>
    intro i scs h sc hsc
    injection h with h'
    subst h'
    cases hsc
  | cons p rest ih =>
    intro i scs h sc hsc
    rw [compare_pairs] at h
    rcases hcp : compare_pair cmp p i with e | sc0 <;> rw [hcp] at h
    · cases h
    · rcases hcps : compare_pairs cmp rest (i + 1) with e | scs0 <;>
        rw [hcps] at h
      · cases h
      · injection h with h'
        subst h'
        rcases List.mem_cons.mp hsc with hsc | hsc
        · subst hsc
          exact compare_pair_no_cascade cmp p i sc hcp
        · exact ih (i + 1) scs0 hcps sc hsc

theorem rootCauseIdx_some :
    ∀ (l : List StepComparison) (k : Nat), rootCauseIdx l = some k →
      (∃ sc, l[k]? = some sc ∧ (sc.status = StepStatus.DIVERGE
        ∨ sc.status = StepStatus.ADD ∨ sc.status = StepStatus.REMOVE)) ∧
      ∀ i sc, i < k → l[i]? = some sc →
        ¬ (sc.status = StepStatus.DIVERGE ∨ sc.status = StepStatus.ADD
            ∨ sc.status = StepStatus.REMOVE) := by
  intro l
  induction l with
  | nil =>
    intro k h
    cases h
  | cons sc0 rest ih =>
    intro k h
    rw [rootCauseIdx] at h
    by_cases hp : sc0.status = StepStatus.DIVERGE ∨ sc0.status = StepStatus.ADD
        ∨ sc0.status = StepStatus.REMOVE
    · rw [if_pos hp] at h
      injection h with h'
      subst h'
      refine ⟨⟨sc0, by simp, hp⟩, ?_⟩
      intro i sc hi
      omega
    · rw [if_neg hp] at h
      rcases hrec : rootCauseIdx rest with _ | k0 <;> rw [hrec] at h
      · cases h
      · simp only [Option.map_some'] at h
        injection h with h'
        subst h'
        obtain ⟨⟨sc1, hg, hp1⟩, hmin⟩ := ih k0 hrec
        refine ⟨⟨sc1, by simpa using hg, hp1⟩, ?_⟩
        intro i sc hi hgi
        match i with
        | 0 =>
          rw [List.getElem?_cons_zero] at hgi
          injection hgi with hgi
          subst hgi
          exact hp
        | i + 1 =>
          rw [List.getElem?_cons_succ] at hgi
          exact hmin i sc (by omega) hgi

theorem rootCauseIdx_none :
    ∀ l : List StepComparison, rootCauseIdx l = Option.none →
      ∀ sc ∈ l, ¬ (sc.status = StepStatus.DIVERGE
        ∨ sc.status = StepStatus.ADD ∨ sc.status = StepStatus.REMOVE) := by
  intro l
  induction l with
  | nil =>
    intro h sc hsc
    cases hsc
  | cons sc0 rest ih =>
    intro h sc hsc
    rw [rootCauseIdx] at h
    by_cases hp : sc0.status = StepStatus.DIVERGE ∨ sc0.status = StepStatus.ADD
        ∨ sc0.status = StepStatus.REMOVE
    · rw [if_pos hp] at h
      cases h
    · rw [if_neg hp] at h
      rcases hrec : rootCauseIdx rest with _ | k0
      · rcases List.mem_cons.mp hsc with hsc | hsc
        · subst hsc
          exact hp
        · exact ih hrec sc hsc
      · rw [hrec] at h
        simp only [Option.map_some'] at h
        cases h

theorem markFrom_getElem? (k : Nat) :
    ∀ (l : List StepComparison) (i j : Nat),
      (markFrom k l i)[j]? = (l[j]?).map (fun sc =>
        if k + 1 ≤ i + j ∧ sc.status = StepStatus.DIVERGE
        then { sc with status := StepStatus.CASCADE } else sc) := by
  intro l
  induction l with
  | nil =>
    intro i j
    simp [markFrom]
  | cons sc0 rest ih =>
    intro i j
    rw [markFrom]
    match j with
    | 0 =>
      rw [List.getElem?_cons_zero, List.getElem?_cons_zero, Option.map_some']
      norm_num
    | j + 1 =>
      rw [List.getElem?_cons_succ, List.getElem?_cons_succ, ih (i + 1) j,
        show i + 1 + j = i + (j + 1) from by omega]

/-- C3: after `compare_recordings` returns, `root_cause_index` is the index
of the first step whose pre-cascade status is DIVERGE, ADD or REMOVE (`none`
if there is no such step); every step before it — pre-cascade and final —
has status MATCH; every later step whose pre-cascade status was DIVERGE has
final status CASCADE; and ADD/REMOVE steps are never reclassified.  `pre` is
the pre-cascade list produced by the scoring loop. -/
theorem claim_C3 (cmp : Comparison)
    (baseline_details replay_details : List LLMCallDetail)
    (pre : List StepComparison) (res : ComparisonResult)
    (hpre : compare_pairs cmp (align_by_lcs baseline_details replay_details) 0
      = .ok pre)
    (hres : compare_recordings cmp baseline_details replay_details = .ok res) :
    (∀ k : Nat, res.root_cause_index = some k →
      (∃ sc : StepComparison, pre[k]? = some sc ∧ (sc.status = StepStatus.DIVERGE
        ∨ sc.status = StepStatus.ADD ∨ sc.status = StepStatus.REMOVE)) ∧
      (∀ (i : Nat) (sc : StepComparison), i < k → pre[i]? = some sc →
        sc.status = StepStatus.MATCH) ∧
      (∀ (i : Nat) (sc' : StepComparison), i < k →
        res.step_comparisons[i]? = some sc' →
        sc'.status = StepStatus.MATCH) ∧
      (∀ (i : Nat) (sc sc' : StepComparison), k < i → pre[i]? = some sc →
        res.step_comparisons[i]? = some sc' →
        sc.status = StepStatus.DIVERGE → sc'.status = StepStatus.CASCADE)) ∧
    (res.root_cause_index = Option.none →
      ∀ sc ∈ pre, sc.status = StepStatus.MATCH) ∧
    (∀ (i : Nat) (sc sc' : StepComparison), pre[i]? = some sc →
      res.step_comparisons[i]? = some sc' →
      (sc.status = StepStatus.ADD → sc'.status = StepStatus.ADD) ∧
      (sc.status = StepStatus.REMOVE → sc'.status = StepStatus.REMOVE)) := by
  have hnc := compare_pairs_no_cascade cmp _ 0 pre hpre
  rcases baseline_details with _ | ⟨b0, brest⟩
  · simp only [compare_recordings] at hres
    rw [hpre] at hres
    dsimp only [] at hres
    cases hres
  · simp only [compare_recordings] at hres
    rw [hpre] at hres
    dsimp only [] at hres
    injection hres with h'
    subst h'
    have hpreMatch : ∀ k, rootCauseIdx pre = some k →
        ∀ i sc, i < k → pre[i]? = some sc → sc.status = StepStatus.MATCH := by
      intro k hk i sc hi hgi
      have h1 := (rootCauseIdx_some pre k hk).2 i sc hi hgi
      have h2 := hnc sc (List.getElem?_mem hgi)
      cases hst : sc.status <;> simp_all
    refine ⟨?_, ?_, ?_⟩
    · intro k hk
      have hk' : rootCauseIdx pre = some k := hk
      obtain ⟨⟨sc1, hg1, hp1⟩, -⟩ := rootCauseIdx_some pre k hk'
      refine ⟨⟨sc1, hg1, hp1⟩, hpreMatch k hk', ?_, ?_⟩
      · intro i sc' hi hgi'
        have hmc : (mark_cascades pre (rootCauseIdx pre))[i]? = some sc' := hgi'
        rw [hk'] at hmc
        rw [show mark_cascades pre (some k) = markFrom k pre 0 from rfl,
          markFrom_getElem?] at hmc
        obtain ⟨sc, hgsc, hfn⟩ := Option.map_eq_some'.mp hmc
        have : ¬ (k + 1 ≤ 0 + i ∧ sc.status = StepStatus.DIVERGE) := by
          intro hcon
          omega
        rw [if_neg this] at hfn
        subst hfn
        exact hpreMatch k hk' i sc hi hgsc
      · intro i sc sc' hki hgi hgi' hdiv
        have hmc : (mark_cascades pre (rootCauseIdx pre))[i]? = some sc' := hgi'
        rw [hk'] at hmc
        rw [show mark_cascades pre (some k) = markFrom k pre 0 from rfl,
          markFrom_getElem?] at hmc
        obtain ⟨sc2, hgsc, hfn⟩ := Option.map_eq_some'.mp hmc
        rw [hgi] at hgsc
        injection hgsc with hgsc
        subst hgsc
        rw [if_pos ⟨by omega, hdiv⟩] at hfn
        subst hfn
        rfl
    · intro hnone sc hsc
      have hnone' : rootCauseIdx pre = Option.none := hnone
      have h1 := rootCauseIdx_none pre hnone' sc hsc
      have h2 := hnc sc hsc
      cases hst : sc.status <;> simp_all
    · intro i sc sc' hgi hgi'
      have hmc : (mark_cascades pre (rootCauseIdx pre))[i]? = some sc' := hgi'
      rcases hrci : rootCauseIdx pre with _ | k
      · rw [hrci] at hmc
        rw [show mark_cascades pre Option.none = pre from rfl] at hmc
        rw [hgi] at hmc
        injection hmc with hmc
        subst hmc
        exact ⟨fun h => h, fun h => h⟩
      · rw [hrci] at hmc
        rw [show mark_cascades pre (some k) = markFrom k pre 0 from rfl,
          markFrom_getElem?] at hmc
        obtain ⟨sc2, hgsc, hfn⟩ := Option.map_eq_some'.mp hmc
        rw [hgi] at hgsc
        injection hgsc with hgsc
        subst hgsc
        constructor
        · intro hadd
          have : ¬ (k + 1 ≤ 0 + i ∧ sc.status = StepStatus.DIVERGE) := by
            rw [hadd]
            intro hcon
            cases hcon.2
          rw [if_neg this] at hfn
          subst hfn
          exact hadd
        · intro hrem
          have : ¬ (k + 1 ≤ 0 + i ∧ sc.status = StepStatus.DIVERGE) := by
            rw [hrem]
            intro hcon
            cases hcon.2
          rw [if_neg this] at hfn
          subst hfn
          exact hrem

set_option maxRecDepth 8000 in
/-- Witness for C3: comparing `[sampleDetail]` against itself, the scoring
loop and the comparison succeed, the root cause is `none`, and the single
step has status MATCH. -/
theorem claim_C3_witness :
    compare_pairs cmpFixed (align_by_lcs [sampleDetail] [sampleDetail]) 0
      = .ok [sampleStep] ∧
    compare_recordings cmpFixed [sampleDetail] [sampleDetail]
      = .ok sampleResult ∧
    sampleStep.status = StepStatus.MATCH := by
  refine ⟨by rfl, by rfl, ?_⟩
  exact (claim_C3 cmpFixed [sampleDetail] [sampleDetail] [sampleStep]
    sampleResult (by rfl) (by rfl)).2.1 rfl sampleStep
    (List.mem_singleton.mpr rfl)

set_option maxRecDepth 8000 in
/-- Model check: the canonical serialisation (sort_keys, minimal
separators) agrees byte-for-byte with CPython `json.dumps` on a nested
sample. -/
theorem dumpsCanonical_sample : Py.dumpsCanonical (.dict [("zeta", .int 1),
    ("alpha", .dict [("b", .list [.int 1, .str "x", .none, .bool true]),
      ("a", .bool false)]),
    ("mid", .str "héllo\"w")])
  = "\x7b\"alpha\":\x7b\"a\":false,\"b\":[1,\"x\",null,true]\x7d,\"mid\":\"h\\u00e9llo\\\"w\",\"zeta\":1\x7d" := by rfl

/-- C6: an aligned MATCHED pair whose details have equal fingerprints and
equal canonical-JSON SHA-256 response hashes is scored as an exact match:
status MATCH, match_type EXACT, similarity_score 1. -/
theorem claim_C6 (cmp : Comparison) (pair : AlignedPair) (si : Nat)
    (b r : LLMCallDetail)
    (hb : pair.baseline_detail = some b)
    (hr : pair.replay_detail = some r)
    (hst : pair.status = AlignStatus.MATCHED)
    (hf : b.fingerprint = r.fingerprint)
    (hh : hash_response b.response_data = hash_response r.response_data) :
    compare_pair cmp pair si = .ok
      { step_index := si
        baseline_node_id := some b.node_id
        replay_node_id := some r.node_id
        status := StepStatus.MATCH
        baseline_detail_id := b.id
        replay_detail_id := r.id
        match_type := some MatchType.EXACT
        similarity_score := 1
        diff_summary := Option.none } := by
  have hem : exact_match b r = 1 := by
    unfold exact_match
    rw [if_neg (not_not_intro hf), if_pos hh]
  unfold compare_pair
  rw [hst, if_neg (by decide), if_neg (by decide), hb, hr]
  dsimp only []
  rw [if_pos hem]

set_option maxRecDepth 8000 in
/-- Witness for C6: the MATCHED self-pair of `sampleDetail` is scored
MATCH / EXACT / 1. -/
theorem claim_C6_witness :
    compare_pair cmpFixed samplePair 0 = .ok sampleStep :=
  claim_C6 cmpFixed samplePair 0 sampleDetail sampleDetail rfl rfl rfl rfl rfl


/-- C5: whenever the three extractions succeed (the model value joins as a
string, and `messages`/`tools`/`functions` are iterable), the fingerprint
is exactly the first 16 hex characters of the SHA-256 digest of
`provider|method|model|json.dumps(roles)|json.dumps(tool_names)` — in
particular a deterministic function of those five components. -/
theorem claim_C5 (provider method : String)
    (request_params : List (String × Py.Val))
    (model : String) (roles tools : List Py.Val)
    (hm : asStr (Py.dictGet request_params "model" (Py.Val.str ""))
      = Except.ok model)
    (hr : extract_message_roles request_params = Except.ok roles)
    (ht : extract_tool_names request_params = Except.ok tools) :
    compute_fingerprint provider method request_params
      = Except.ok ((Sha256.sha256hex (Py.pyJoin "|" [provider, method, model,
          Py.dumpsDefault (.list roles),
          Py.dumpsDefault (.list tools)])).take 16) := by
  unfold compute_fingerprint structuralCombined
  rw [hm, hr, ht]
  rfl

/-- Witness for C5: a concrete OpenAI-style request. -/
theorem claim_C5_witness :
    asStr (Py.dictGet fpParams "model" (Py.Val.str "")) = Except.ok "gpt-4" ∧
    extract_message_roles fpParams = Except.ok [Py.Val.str "user"] ∧
    extract_tool_names fpParams = Except.ok [] ∧
    compute_fingerprint "openai" "chat" fpParams
      = Except.ok ((Sha256.sha256hex (Py.pyJoin "|" ["openai", "chat", "gpt-4",
          Py.dumpsDefault (.list [Py.Val.str "user"]),
          Py.dumpsDefault (.list [])])).take 16) :=
  ⟨rfl, rfl, rfl,
    claim_C5 "openai" "chat" fpParams "gpt-4" [Py.Val.str "user"] []
      rfl rfl rfl⟩

/-- C9 counterexample: the claim says swapping two adjacent messages'
roles always changes the fingerprint; but a falsy role is dropped by
`_extract_message_roles`, so swapping the (distinct) adjacent messages
`{"role": ""}` and `{"role": "user"}` leaves the fingerprint unchanged. -/
theorem claim_C9_counterexample :
    compute_fingerprint "openai" "chat"
        [("messages", Py.Val.list [Py.Val.dict [("role", Py.Val.str "")],
          Py.Val.dict [("role", Py.Val.str "user")]])]
      = compute_fingerprint "openai" "chat"
        [("messages", Py.Val.list [Py.Val.dict [("role", Py.Val.str "user")],
          Py.Val.dict [("role", Py.Val.str "")]])] ∧
    Py.Val.dict [("role", Py.Val.str "")]
      ≠ Py.Val.dict [("role", Py.Val.str "user")] :=
  ⟨rfl, by simp⟩

/-- Swapping two adjacent messages whose extracted roles are distinct
(both truthy) changes the structural string of `compute_fingerprint`. -/
theorem swap_roles_ne (provider method : String)
    (rest : List (String × Py.Val)) (pre post : List Py.Val)
    (m1 m2 : Py.Val) (s1 s2 : String)
    (model : String) (tools : List Py.Val)
    (hm1 : roleContrib m1 = [Py.Val.str s1])
    (hm2 : roleContrib m2 = [Py.Val.str s2])
    (hne : s1 ≠ s2)
    (hmod : asStr (Py.dictGet rest "model" (Py.Val.str "")) = Except.ok model)
    (ht : extract_tool_names rest = Except.ok tools) :
    structuralCombined provider method
        (("messages", Py.Val.list (pre ++ m1 :: m2 :: post)) :: rest)
      ≠ structuralCombined provider method
        (("messages", Py.Val.list (pre ++ m2 :: m1 :: post)) :: rest) := by
  have hcomb : ∀ (x y : Py.Val) (t1 t2 : String),
      roleContrib x = [Py.Val.str t1] → roleContrib y = [Py.Val.str t2] →
      structuralCombined provider method
        (("messages", Py.Val.list (pre ++ x :: y :: post)) :: rest)
      = Except.ok (Py.pyJoin "|" [provider, method, model,
          Py.dumpsDefault (.list (pre.flatMap roleContrib ++
            Py.Val.str t1 :: Py.Val.str t2 :: post.flatMap roleContrib)),
          Py.dumpsDefault (.list tools)]) := by
    intro x y t1 t2 hx hy
    unfold structuralCombined
    rw [show Py.dictGet (("messages", Py.Val.list (pre ++ x :: y :: post)) :: rest)
        "model" (Py.Val.str "") = Py.dictGet rest "model" (Py.Val.str "") from rfl]
    rw [hmod]
    rw [show extract_message_roles
        (("messages", Py.Val.list (pre ++ x :: y :: post)) :: rest)
        = Except.ok ((pre ++ x :: y :: post).flatMap roleContrib) from rfl]
    rw [List.flatMap_append, List.flatMap_cons, List.flatMap_cons, hx, hy]
    rw [show extract_tool_names
        (("messages", Py.Val.list (pre ++ x :: y :: post)) :: rest)
        = extract_tool_names rest from rfl]
    rw [ht]
    rw [show [Py.Val.str t1] ++ ([Py.Val.str t2] ++ post.flatMap roleContrib)
        = Py.Val.str t1 :: Py.Val.str t2 :: post.flatMap roleContrib from rfl]
    rfl
  rw [hcomb m1 m2 s1 s2 hm1 hm2, hcomb m2 m1 s2 s1 hm2 hm1]
  intro h
  injection h with h'
  have hd := congrArg String.data h'
  rw [Py.pyJoin_data_cons, Py.pyJoin_data_cons] at hd
  simp only [List.flatMap_cons, List.flatMap_nil, List.append_nil,
    List.append_assoc] at hd
  have hd1 := List.append_cancel_left hd
  have hd2 := List.append_cancel_left hd1
  have hd3 := List.append_cancel_left hd2
  have hd4 := List.append_cancel_left hd3
  have hd5 := List.append_cancel_left hd4
  have hd6 := List.append_cancel_left hd5
  have hx : (Py.dumpsDefault (.list (pre.flatMap roleContrib ++
      Py.Val.str s1 :: Py.Val.str s2 :: post.flatMap roleContrib))).data
      = (Py.dumpsDefault (.list (pre.flatMap roleContrib ++
        Py.Val.str s2 :: Py.Val.str s1 :: post.flatMap roleContrib))).data :=
    (List.append_left_inj _).mp hd6
  have hxs : Py.dumpsDefault (.list (pre.flatMap roleContrib ++
      Py.Val.str s1 :: Py.Val.str s2 :: post.flatMap roleContrib))
      = Py.dumpsDefault (.list (pre.flatMap roleContrib ++
        Py.Val.str s2 :: Py.Val.str s1 :: post.flatMap roleContrib)) :=
    congrArg String.mk hx
  exact Py.dumpsDefault_swap_ne (pre.flatMap roleContrib)
    (post.flatMap roleContrib) s1 s2 hne hxs

/-- Swapping two adjacent tool entries whose extracted names are distinct
changes the structural string of `compute_fingerprint`. -/
theorem swap_tools_ne (provider method : String)
    (rest : List (String × Py.Val)) (pre post : List Py.Val)
    (t1 t2 : Py.Val) (s1 s2 : String)
    (model : String) (roles fs : List Py.Val)
    (ht1 : toolContrib t1 = [Py.Val.str s1])
    (ht2 : toolContrib t2 = [Py.Val.str s2])
    (hne : s1 ≠ s2)
    (hmod : asStr (Py.dictGet rest "model" (Py.Val.str "")) = Except.ok model)
    (hroles : extract_message_roles rest = Except.ok roles)
    (hfuncs : Py.iter (Py.dictGet rest "functions" (Py.Val.list []))
      = Except.ok fs) :
    structuralCombined provider method
        (("tools", Py.Val.list (pre ++ t1 :: t2 :: post)) :: rest)
      ≠ structuralCombined provider method
        (("tools", Py.Val.list (pre ++ t2 :: t1 :: post)) :: rest) := by
  have hcomb : ∀ (x y : Py.Val) (u1 u2 : String),
      toolContrib x = [Py.Val.str u1] → toolContrib y = [Py.Val.str u2] →
      structuralCombined provider method
        (("tools", Py.Val.list (pre ++ x :: y :: post)) :: rest)
      = Except.ok (Py.pyJoin "|" [provider, method, model,
          Py.dumpsDefault (.list roles),
          Py.dumpsDefault (.list (pre.flatMap toolContrib ++
            Py.Val.str u1 :: Py.Val.str u2 ::
              (post.flatMap toolContrib ++ fs.flatMap funcContrib)))]) := by
    intro x y u1 u2 hx hy
    unfold structuralCombined
    rw [show Py.dictGet (("tools", Py.Val.list (pre ++ x :: y :: post)) :: rest)
        "model" (Py.Val.str "") = Py.dictGet rest "model" (Py.Val.str "") from rfl]
    rw [hmod]
    rw [show extract_message_roles
        (("tools", Py.Val.list (pre ++ x :: y :: post)) :: rest)
        = extract_message_roles rest from rfl]
    rw [hroles]
    rw [show extract_tool_names
        (("tools", Py.Val.list (pre ++ x :: y :: post)) :: rest)
        = Except.bind (Py.iter (Py.dictGet rest "functions" (Py.Val.list [])))
            (fun functions => Except.ok
              ((pre ++ x :: y :: post).flatMap toolContrib
                ++ functions.flatMap funcContrib)) from rfl]
    rw [hfuncs]
    rw [show Except.bind (Except.ok fs)
        (fun functions => Except.ok
          ((pre ++ x :: y :: post).flatMap toolContrib
            ++ functions.flatMap funcContrib))
        = Except.ok ((pre ++ x :: y :: post).flatMap toolContrib
            ++ fs.flatMap funcContrib) from rfl]
    rw [List.flatMap_append, List.flatMap_cons, List.flatMap_cons, hx, hy]
    rw [show pre.flatMap toolContrib ++
        ([Py.Val.str u1] ++ ([Py.Val.str u2] ++ post.flatMap toolContrib))
        ++ fs.flatMap funcContrib
        = pre.flatMap toolContrib ++ (Py.Val.str u1 :: Py.Val.str u2 ::
            post.flatMap toolContrib) ++ fs.flatMap funcContrib from rfl]
    rw [List.append_assoc (pre.flatMap toolContrib)]
    rw [show (Py.Val.str u1 :: Py.Val.str u2 :: post.flatMap toolContrib)
        ++ fs.flatMap funcContrib
        = Py.Val.str u1 :: Py.Val.str u2 ::
            (post.flatMap toolContrib ++ fs.flatMap funcContrib) from rfl]
    rfl
  rw [hcomb t1 t2 s1 s2 ht1 ht2, hcomb t2 t1 s2 s1 ht2 ht1]
  intro h
  injection h with h'
  have hd := congrArg String.data h'
  rw [Py.pyJoin_data_cons, Py.pyJoin_data_cons] at hd
  simp only [List.flatMap_cons, List.flatMap_nil, List.append_nil,
    List.append_assoc] at hd
  have hd1 := List.append_cancel_left hd
  have hd2 := List.append_cancel_left hd1
  have hd3 := List.append_cancel_left hd2
  have hd4 := List.append_cancel_left hd3
  have hd5 := List.append_cancel_left hd4
  have hd6 := List.append_cancel_left hd5
  have hd7 := List.append_cancel_left hd6
  have hd8 := List.append_cancel_left hd7
  have hxs : Py.dumpsDefault (.list (pre.flatMap toolContrib ++
      Py.Val.str s1 :: Py.Val.str s2 ::
        (post.flatMap toolContrib ++ fs.flatMap funcContrib)))
      = Py.dumpsDefault (.list (pre.flatMap toolContrib ++
        Py.Val.str s2 :: Py.Val.str s1 ::
          (post.flatMap toolContrib ++ fs.flatMap funcContrib))) :=
    congrArg String.mk hd8
  exact Py.dumpsDefault_swap_ne (pre.flatMap toolContrib)
    (post.flatMap toolContrib ++ fs.flatMap funcContrib) s1 s2 hne hxs

/-- C9 (amended): swapping two adjacent messages whose extracted roles are
distinct (both truthy), or two adjacent tool entries whose extracted names
are distinct, changes the pre-hash structural string `combined` of
`compute_fingerprint`; the fingerprint itself then differs unless SHA-256
collides on the two strings. -/
theorem claim_C9 :
    (∀ (provider method : String) (rest : List (String × Py.Val))
        (pre post : List Py.Val) (m1 m2 : Py.Val) (s1 s2 : String)
        (model : String) (tools : List Py.Val),
      roleContrib m1 = [Py.Val.str s1] →
      roleContrib m2 = [Py.Val.str s2] →
      s1 ≠ s2 →
      asStr (Py.dictGet rest "model" (Py.Val.str "")) = Except.ok model →
      extract_tool_names rest = Except.ok tools →
      structuralCombined provider method
          (("messages", Py.Val.list (pre ++ m1 :: m2 :: post)) :: rest)
        ≠ structuralCombined provider method
          (("messages", Py.Val.list (pre ++ m2 :: m1 :: post)) :: rest)) ∧
    (∀ (provider method : String) (rest : List (String × Py.Val))
        (pre post : List Py.Val) (t1 t2 : Py.Val) (s1 s2 : String)
        (model : String) (roles fs : List Py.Val),
      toolContrib t1 = [Py.Val.str s1] →
      toolContrib t2 = [Py.Val.str s2] →
      s1 ≠ s2 →
      asStr (Py.dictGet rest "model" (Py.Val.str "")) = Except.ok model →
      extract_message_roles rest = Except.ok roles →
      Py.iter (Py.dictGet rest "functions" (Py.Val.list [])) = Except.ok fs →
      structuralCombined provider method
          (("tools", Py.Val.list (pre ++ t1 :: t2 :: post)) :: rest)
        ≠ structuralCombined provider method
          (("tools", Py.Val.list (pre ++ t2 :: t1 :: post)) :: rest)) :=
  ⟨fun provider method rest pre post m1 m2 s1 s2 model tools h1 h2 h3 h4 h5 =>
      swap_roles_ne provider method rest pre post m1 m2 s1 s2 model tools
        h1 h2 h3 h4 h5,
    fun provider method rest pre post t1 t2 s1 s2 model roles fs
        h1 h2 h3 h4 h5 h6 =>
      swap_tools_ne provider method rest pre post t1 t2 s1 s2 model roles fs
        h1 h2 h3 h4 h5 h6⟩

/-- Witness for C9: swapping adjacent `user` and `system` messages, and
swapping two adjacent named tools, each change the structural string. -/
theorem claim_C9_witness :
    (structuralCombined "p" "m"
        [("messages", Py.Val.list [Py.Val.dict [("role", Py.Val.str "user")],
          Py.Val.dict [("role", Py.Val.str "system")]])]
      ≠ structuralCombined "p" "m"
        [("messages", Py.Val.list [Py.Val.dict [("role", Py.Val.str "system")],
          Py.Val.dict [("role", Py.Val.str "user")]])]) ∧
    (structuralCombined "p" "m"
        [("tools", Py.Val.list [Py.Val.dict [("name", Py.Val.str "a")],
          Py.Val.dict [("name", Py.Val.str "b")]])]
      ≠ structuralCombined "p" "m"
        [("tools", Py.Val.list [Py.Val.dict [("name", Py.Val.str "b")],
          Py.Val.dict [("name", Py.Val.str "a")]])]) :=
  ⟨claim_C9.1 "p" "m" [] [] [] (Py.Val.dict [("role", Py.Val.str "user")])
      (Py.Val.dict [("role", Py.Val.str "system")]) "user" "system" "" []
      rfl rfl (by decide) rfl rfl,
    claim_C9.2 "p" "m" [] [] [] (Py.Val.dict [("name", Py.Val.str "a")])
      (Py.Val.dict [("name", Py.Val.str "b")]) "a" "b" "" [] []
      rfl rfl (by decide) rfl rfl rfl⟩

end AgentTest

namespace AgentGit

/-- C1: the spec says a publish during which any subscriber raises commits
nothing.  But `DagStore.insert_node` and `update_branch_head` each commit
on the shared connection themselves, so after the tracer handles the event
and a later subscriber raises, `publish` re-raises and rolls back — yet
the inserted node row and the branch-head update are already committed and
remain visible. -/
theorem claim_C1 :
    (publish connC1 [cbTracerC1, cbFailC1]).2 = some Py.Err.runtimeError ∧
    connC1.committed.nodes.length = 0 ∧
    ((publish connC1 [cbTracerC1, cbFailC1]).1).committed.nodes.length = 1 ∧
    ((publish connC1 [cbTracerC1, cbFailC1]).1).committed.branches.map
      (fun b => b.head_node_id) = [some 1] := by
  refine ⟨rfl, rfl, rfl, rfl⟩

/-- `_create_node` under an active branch: exactly one node row is
appended, its parent is the branch head, and the branch head moves to the
new rowid; both steps are committed. -/
theorem create_node_active (turn : Nat) (c : Conn) (u s a tr : String)
    (content : List (String × Py.Val)) (branch : Branch)
    (h : get_active_branch c.pending u s = some branch) :
    ∃ row : NodeRow,
      row.id = nextNodeId c.pending ∧
      row.parent_id = pyOptInt branch.head_node_id ∧
      (create_node turn c u s a tr content).pending.nodes
        = c.pending.nodes ++ [row] ∧
      (create_node turn c u s a tr content).pending.branches
        = c.pending.branches.map (fun b =>
            if b.user_id = u ∧ b.session_id = s ∧ b.branch_id = branch.branch_id
            then { b with head_node_id := some ((nextNodeId c.pending : Nat) : Int) }
            else b) ∧
      (create_node turn c u s a tr content).committed
        = (create_node turn c u s a tr content).pending := by
  unfold create_node
  rw [h]
  exact ⟨{ id := nextNodeId c.pending,
           user_id := u,
           session_id := s,
           parent_id := pyOptInt branch.head_node_id,
           branch_id := branch.branch_id,
           action_type := a,
           content := Py.dumpsDefault (.dict content),
           triggered_by := tr,
           caller_context := Py.dumpsDefault (.dict [("turn", Py.Val.int turn)]),
           duration_ms := Py.dictGet content "duration_ms" (.int 0) },
    rfl, rfl, rfl, rfl, rfl⟩

theorem handle_event_create (turn : Nat) (c : Conn) (ev : Event)
    (a tr : String) (content : List (String × Py.Val)) (branch : Branch)
    (he : (handle_event turn c ev).2
      = create_node turn c (evUser ev) (evSession ev) a tr content)
    (h3 : get_active_branch c.pending (evUser ev) (evSession ev) = some branch) :
    ∃ row : NodeRow,
      row.id = nextNodeId c.pending ∧
      row.parent_id = pyOptInt branch.head_node_id ∧
      (handle_event turn c ev).2.pending.nodes = c.pending.nodes ++ [row] ∧
      (handle_event turn c ev).2.pending.branches
        = c.pending.branches.map (fun b =>
            if b.user_id = evUser ev ∧ b.session_id = evSession ev
                ∧ b.branch_id = branch.branch_id
            then { b with head_node_id := some ((nextNodeId c.pending : Nat) : Int) }
            else b) ∧
      (handle_event turn c ev).2.committed = (handle_event turn c ev).2.pending := by
  rw [he]
  exact create_node_active turn c (evUser ev) (evSession ev) a tr content branch h3

/-- C7 (amended): for the ten node-creating event types the tracer behaves
as claimed — no active branch drops the event without touching the store;
an active branch gets exactly one appended node whose parent is the branch
head, and the head moves to the new node's id, all committed.  But
`AGENT_TURN_START` (which only increments the turn counter) and
`LLM_STREAM_CHUNK` (a `pass`) never touch the store, active branch or
not — the original "otherwise exactly one node is inserted" is false for
them. -/
theorem claim_C7 (ev : Event) (turn : Nat) (c : Conn) :
    ((ev.type = EventType.AGENT_TURN_START
        ∨ ev.type = EventType.LLM_STREAM_CHUNK) →
      (handle_event turn c ev).2 = c) ∧
    (get_active_branch c.pending (evUser ev) (evSession ev) = Option.none →
      (handle_event turn c ev).2 = c) ∧
    (∀ branch : Branch,
      ev.type ≠ EventType.AGENT_TURN_START →
      ev.type ≠ EventType.LLM_STREAM_CHUNK →
      get_active_branch c.pending (evUser ev) (evSession ev) = some branch →
      ∃ row : NodeRow,
        row.id = nextNodeId c.pending ∧
        row.parent_id = pyOptInt branch.head_node_id ∧
        (handle_event turn c ev).2.pending.nodes = c.pending.nodes ++ [row] ∧
        (handle_event turn c ev).2.pending.branches
          = c.pending.branches.map (fun b =>
              if b.user_id = evUser ev ∧ b.session_id = evSession ev
                  ∧ b.branch_id = branch.branch_id
              then { b with head_node_id := some ((nextNodeId c.pending : Nat) : Int) }
              else b) ∧
        (handle_event turn c ev).2.committed
          = (handle_event turn c ev).2.pending) := by
  refine ⟨?_, ?_, ?_⟩
  · intro h
    rcases h with h | h <;> (unfold handle_event; rw [h])
  · intro h
    have hcn : ∀ a tr content,
        create_node turn c (evUser ev) (evSession ev) a tr content = c := by
      intro a tr content
      unfold create_node
      rw [h]
    rcases hty : ev.type <;> unfold handle_event <;> rw [hty] <;>
      first
      | rfl
      | exact hcn _ _ _
  · intro branch h1 h2 h3
    rcases hty : ev.type <;>
      first
      | exact absurd hty h1
      | exact absurd hty h2
      | exact handle_event_create turn c ev _ _ _ branch
          (by unfold handle_event; rw [hty]) h3

/-- C7 counterexample: an `AGENT_TURN_START` event is handled by the
tracer while an active branch exists, yet no node is inserted and no
branch is modified — the connection is returned unchanged (only the turn
counter moves). -/
theorem claim_C7_counterexample :
    get_active_branch connC7.pending "default" "default"
      = some (rowToBranch branchRowC7) ∧
    handle_event 5 connC7 { type := EventType.AGENT_TURN_START } =
      (6, connC7) :=
  ⟨rfl, rfl⟩

/-- Witness for C7: a `USER_INPUT` event under an active branch appends
exactly one node row. -/
theorem claim_C7_witness :
    (handle_event 0 connC7
        { type := EventType.USER_INPUT, content := some "hello" }).2.pending.nodes.length
      = connC7.pending.nodes.length + 1 := by
  obtain ⟨row, -, -, h3, -, -⟩ :=
    (claim_C7 { type := EventType.USER_INPUT, content := some "hello" } 0
      connC7).2.2 (rowToBranch branchRowC7) (by decide) (by decide) rfl
  rw [h3, List.length_append]
  rfl

end AgentGit

namespace AgentTest
/-- `_on_llm_call_end` either leaves the session unchanged or, when a
recording is active (and the branch head is readable), appends exactly one
detail carrying the current step count and increments it. -/
theorem llmEnd_cases (sess : Session) (ev : AgentGit.Event) :
    on_llm_call_end sess ev = sess ∨
    ∃ (rec : Recording) (stored : LLMCallDetail),
      sess.active = some rec ∧
      stored.recording_id = rec.recording_id ∧
      stored.step_index = rec.step_count ∧
      (on_llm_call_end sess ev).details = sess.details ++ [stored] ∧
      (on_llm_call_end sess ev).active
        = some { rec with step_count := rec.step_count + 1 } ∧
      (on_llm_call_end sess ev).user_id = sess.user_id ∧
      (on_llm_call_end sess ev).session_id = sess.session_id ∧
      (on_llm_call_end sess ev).ag = sess.ag := by
  unfold on_llm_call_end
  rcases ha : sess.active with _ | rec
  · left
    rfl
  · dsimp only []
    rcases hb : AgentGit.get_active_branch sess.ag.pending
        (AgentGit.pyOrStr ev.user_id sess.user_id)
        (AgentGit.pyOrStr ev.session_id sess.session_id) with _ | branch
    · left
      rfl
    · dsimp only []
      rcases hh : branch.head_node_id with _ | h
      · left
        rfl
      · dsimp only []
        by_cases hemp : h = ""
        · rw [if_pos hemp]
          left
          rfl
        · rw [if_neg hemp]
          right
          exact ⟨rec, llmDetail sess rec ev h, rfl, rfl, rfl, rfl, rfl,
            rfl, rfl, rfl⟩

theorem detailIndices_append (sess : Session) (ds : List LLMCallDetail)
    (d : LLMCallDetail) (rid : String)
    (h : sess.details = ds ++ [d]) (sess0 : Session)
    (h0 : sess0.details = ds) :
    detailIndices sess rid
      = detailIndices sess0 rid ++
        (if d.recording_id = rid then [d.step_index] else []) := by
  unfold detailIndices
  rw [h, h0, List.filter_append]
  by_cases hd : d.recording_id = rid
  · rw [List.map_append]
    congr 1
    rw [if_pos hd]
    rw [show List.filter (fun x => decide (x.recording_id = rid)) [d]
        = [d] from by rw [List.filter_cons, if_pos (by simpa using hd)]; rfl]
    rfl
  · rw [List.map_append]
    congr 1
    rw [if_neg hd]
    rw [show List.filter (fun x => decide (x.recording_id = rid)) [d]
        = [] from by rw [List.filter_cons, if_neg (by simpa using hd)]; rfl]
    rfl

theorem runOps_inv : ∀ (ops : List SessionOp) (sess : Session),
    (startRids ops).Nodup → StepInv sess (startRids ops) →
    StepInv (runOps sess ops) [] := by
  intro ops
  induction ops with
  | nil =>
    intro sess hnd hinv
    obtain ⟨hA, hB, hC⟩ := hinv
    refine ⟨?_, hB, ?_⟩
    · intro rec h
      exact ⟨(hA rec h).1, List.not_mem_nil _⟩
    · intro rid hrid
      cases hrid
  | cons op rest ih =>
    intro sess hnd hinv
    rcases op with ⟨rid, name, bid⟩ | ⟨rid, err⟩ | ev
    · -- startRec
      rw [show startRids (SessionOp.startRec rid name bid :: rest)
          = rid :: startRids rest from rfl] at hnd
      obtain ⟨hni, hnd'⟩ := List.nodup_cons.mp hnd
      apply ih _ hnd'
      have hmem : rid ∈ rid :: startRids rest := List.mem_cons_self rid _
      refine ⟨?_, ?_, ?_⟩
      · intro rec hrec
        have h1 : some rec = some ({ recording_id := rid
                                     name := name
                                     branch_id := bid
                                     status := "in_progress"
                                     step_count := 0 } : Recording) := by
          rw [← hrec]
          rfl
        injection h1 with h2
        subst h2
        constructor
        · rw [show detailIndices (runOp sess (SessionOp.startRec rid name bid))
              rid = detailIndices sess rid from rfl]
          rw [hinv.2.2 rid hmem]
          rfl
        · exact hni
      · intro r
        rw [show detailIndices (runOp sess (SessionOp.startRec rid name bid)) r
            = detailIndices sess r from rfl]
        exact hinv.2.1 r
      · intro r hr
        rw [show detailIndices (runOp sess (SessionOp.startRec rid name bid)) r
            = detailIndices sess r from rfl]
        exact hinv.2.2 r (List.mem_cons_of_mem _ hr)
    · -- endRec
      rw [show startRids (SessionOp.endRec rid err :: rest)
          = startRids rest from rfl] at hnd
      apply ih _ hnd
      refine ⟨?_, ?_, ?_⟩
      · intro rec hrec
        rw [show (runOp sess (SessionOp.endRec rid err)).active
            = Option.none from rfl] at hrec
        cases hrec
      · intro r
        rw [show detailIndices (runOp sess (SessionOp.endRec rid err)) r
            = detailIndices sess r from rfl]
        exact hinv.2.1 r
      · intro r hr
        rw [show detailIndices (runOp sess (SessionOp.endRec rid err)) r
            = detailIndices sess r from rfl]
        exact hinv.2.2 r hr
    · -- llmEnd
      rw [show startRids (SessionOp.llmEnd ev :: rest)
          = startRids rest from rfl] at hnd
      apply ih _ hnd
      rcases llmEnd_cases sess ev with heq |
        ⟨rec, stored, ha, hsr, hsi, hdet, hact, -, -, -⟩
      · rw [show runOp sess (SessionOp.llmEnd ev) = on_llm_call_end sess ev
            from rfl, heq]
        exact hinv
      · have hrec := hinv.1 rec ha
        have hIdx : ∀ r, detailIndices (on_llm_call_end sess ev) r
            = detailIndices sess r ++
              (if stored.recording_id = r then [stored.step_index] else []) :=
          fun r => detailIndices_append _ _ _ r hdet sess rfl
        refine ⟨?_, ?_, ?_⟩
        · intro rec2 hrec2
          rw [show (runOp sess (SessionOp.llmEnd ev)).active
              = (on_llm_call_end sess ev).active from rfl, hact] at hrec2
          injection hrec2 with h'
          subst h'
          constructor
          · rw [show detailIndices (runOp sess (SessionOp.llmEnd ev)) _
                = detailIndices (on_llm_call_end sess ev)
                    ({ rec with step_count := rec.step_count + 1 } :
                      Recording).recording_id from rfl]
            rw [hIdx, show ({ rec with step_count := rec.step_count + 1 } :
              Recording).recording_id = rec.recording_id from rfl,
              hrec.1, if_pos hsr, hsi, ← List.range_succ]
          · exact hrec.2
        · intro r
          rw [show detailIndices (runOp sess (SessionOp.llmEnd ev)) r
              = detailIndices (on_llm_call_end sess ev) r from rfl, hIdx]
          by_cases hr : stored.recording_id = r
          · have hreq : r = rec.recording_id := by rw [← hr, hsr]
            subst hreq
            refine ⟨rec.step_count + 1, ?_⟩
            rw [if_pos hsr, hrec.1, hsi, ← List.range_succ]
          · rw [if_neg hr, List.append_nil]
            exact hinv.2.1 r
        · intro r hr
          rw [show detailIndices (runOp sess (SessionOp.llmEnd ev)) r
              = detailIndices (on_llm_call_end sess ev) r from rfl, hIdx]
          have hrne : stored.recording_id ≠ r := by
            rw [hsr]
            intro h'
            exact hrec.2 (h' ▸ hr)
          rw [if_neg hrne, List.append_nil]
          exact hinv.2.2 r hr

/-- C8: over any interleaving of recording lifecycles and LLM-call-end
events starting from a fresh session, the `step_index` values of the
sidecar rows of every recording form the dense sequence `0, 1, …, N-1` in
insertion order; and each insert stores the recording's current step count
as `step_index` and then increments the count. -/
theorem claim_C8 (ops : List SessionOp) (s0 : Session)
    (h0 : s0.details = []) (h0a : s0.active = Option.none)
    (hnd : (startRids ops).Nodup) :
    (∀ rid, ∃ n, detailIndices (runOps s0 ops) rid = List.range n) ∧
    (∀ (sess : Session) (ev : AgentGit.Event) (rec : Recording)
        (stored : LLMCallDetail),
      sess.active = some rec →
      (on_llm_call_end sess ev).details = sess.details ++ [stored] →
      stored.step_index = rec.step_count ∧
      (on_llm_call_end sess ev).active
        = some { rec with step_count := rec.step_count + 1 }) := by
  constructor
  · have base : StepInv s0 (startRids ops) := by
      refine ⟨?_, ?_, ?_⟩
      · intro rec h
        rw [h0a] at h
        cases h
      · intro rid
        refine ⟨0, ?_⟩
        unfold detailIndices
        rw [h0]
        rfl
      · intro rid hrid
        unfold detailIndices
        rw [h0]
        rfl
    exact (runOps_inv ops s0 hnd base).2.1
  · intro sess ev rec stored ha hgrow
    rcases llmEnd_cases sess ev with heq |
      ⟨rec2, stored2, ha2, hsr, hsi, hdet, hact, -, -, -⟩
    · rw [heq] at hgrow
      have := congrArg List.length hgrow
      rw [List.length_append] at this
      simp at this
    · have hrec2 : rec2 = rec := by
        rw [ha] at ha2
        injection ha2 with h'
        exact h'.symm
      subst hrec2
      rw [hdet] at hgrow
      have h1 := List.append_cancel_left hgrow
      injection h1 with h2
      subst h2
      exact ⟨hsi, hact⟩

/-- Witness for C8: a concrete two-step recording produces step indices
`[0, 1]`. -/
theorem claim_C8_witness :
    (startRids opsC8).Nodup ∧
    detailIndices (runOps sessC8 opsC8) "r1" = [0, 1] ∧
    (∃ n, detailIndices (runOps sessC8 opsC8) "r1" = List.range n) := by
  refine ⟨by decide, by rfl, ?_⟩
  exact (claim_C8 opsC8 sessC8 rfl rfl (by decide)).1 "r1"

set_option maxRecDepth 8000 in
/-- Witness for C4 at a concrete singleton alignment (where the MATCHED
count is 1). -/
theorem claim_C4_witness :
    IsGreatest (fun k => ∃ l : List String,
        l.Sublist ([sampleDetail].map (fun d => d.fingerprint)) ∧
        l.Sublist ([sampleDetail].map (fun d => d.fingerprint)) ∧
        l.length = k)
      ((align_by_lcs [sampleDetail] [sampleDetail]).filter
        (fun pr => pr.status = AlignStatus.MATCHED)).length ∧
    ((align_by_lcs [sampleDetail] [sampleDetail]).filter
      (fun pr => pr.status = AlignStatus.MATCHED)).length = 1 :=
  ⟨claim_C4 [sampleDetail] [sampleDetail], by rfl⟩

set_option maxRecDepth 8000 in
/-- Witness for C10 at a concrete singleton alignment: baseline index 0
occurs in exactly one pair. -/
theorem claim_C10_witness :
    ((align_by_lcs [sampleDetail] [sampleDetail]).filter
      (fun pr => pr.baseline_index = some 0)).length
      = if 0 < [sampleDetail].length then 1 else 0 :=
  (claim_C10 [sampleDetail] [sampleDetail]).1 0

end AgentTest

set_option maxRecDepth 8000 in
/-- Model check: the SHA-256 model reproduces the FIPS 180-4 test vector
for `"abc"`. -/
theorem sha256hex_abc : Sha256.sha256hex "abc"
    = "ba7816bf8f01cfea414140de5dae2223b00361a396177a9cb410ff61f20015ad" := by
  rfl

set_option maxRecDepth 8000 in
/-- Model check: the SHA-256 of the empty string. -/
theorem sha256hex_empty : Sha256.sha256hex ""
    = "e3b0c44298fc1c149afbf4c8996fb92427ae41e4649b934ca495991b7852b855" := by
  rfl
